import Mathlib

/-!
Verification of the resumable painting-appraisal pipeline implemented in
`appraise.py` (class `PaintingAppraiser`).

The embedding is shallow: the external services (listing API, item-detail
API, OpenAI appraisal oracle) are deterministic stub functions, Python
floats are modelled as rationals, the pandas CSV artifact is modelled as a
structured list of rows (one per saved appraisal, with the same columns the
script writes), and the controller `run_appraisal` is an executable state
transformer that records an event trace (service calls, `save_appraisals`
invocations, `time.sleep` calls).
-/

namespace Appraise

/-! ## Python string primitives used by the script

`x in s` (substring test), `s.lower()`, `s.strip()`, `s.split(';')`,
`';'.join(...)`, `s.replace(a, '')` and `float(s)` are modelled over
`List Char`, which keeps every definition kernel-executable.
-/

/-- `needle` is a prefix of `hay` (over characters). -/
def startsWithChars : List Char → List Char → Bool
  | _, [] => true
  | [], _ :: _ => false
  | a :: as, b :: bs => a = b && startsWithChars as bs

/-- `needle` occurs as a contiguous run inside `hay`: Python `needle in hay`. -/
def hasSubChars : List Char → List Char → Bool
  | [], n => n.isEmpty
  | a :: as, n => startsWithChars (a :: as) n || hasSubChars as n

/-- Python `needle in hay` for strings. -/
def strContainsSub (hay needle : String) : Bool :=
  hasSubChars hay.data needle.data

/-- ASCII lower-casing of one character (URLs handled by the script are ASCII). -/
def pyToLower (c : Char) : Char :=
  if 'A' ≤ c ∧ c ≤ 'Z' then Char.ofNat (c.toNat + 32) else c

/-- Python `s.lower()` (ASCII model). -/
def lowerStr (s : String) : String := ⟨s.data.map pyToLower⟩

/-- Whitespace characters stripped by Python `str.strip()`. -/
def isPySpace (c : Char) : Bool :=
  c = ' ' || c = '\t' || c = '\n' || c = '\r' || c = '\x0b' || c = '\x0c'

/-- Python `s.strip()` over characters. -/
def stripChars (l : List Char) : List Char :=
  ((l.dropWhile isPySpace).reverse.dropWhile isPySpace).reverse

/-- Python `s.strip()`. -/
def pyStrip (s : String) : String := ⟨stripChars s.data⟩

/-- Python `s.split(sep)` accumulator: collects the current chunk in reverse. -/
def splitCharAux (sep : Char) : List Char → List Char → List (List Char)
  | [], acc => [acc.reverse]
  | c :: t, acc =>
    if c = sep then acc.reverse :: splitCharAux sep t [] else splitCharAux sep t (c :: acc)

/-- Python `s.split(';')`. -/
def pySplitSemi (s : String) : List String :=
  (splitCharAux ';' s.data []).map (fun l => (⟨l⟩ : String))

/-- `';'.join(l)` over characters. -/
def joinSemiChars : List (List Char) → List Char
  | [] => []
  | [x] => x
  | x :: y :: t => x ++ ';' :: joinSemiChars (y :: t)

/-- Python `';'.join(l)`. -/
def joinSemi (l : List String) : String := ⟨joinSemiChars (l.map String.data)⟩

/-! ## `float(...)` and `_get_numeric_value`

Python `float(s)` is modelled for the sign/digits/point/exponent literal
grammar (the forms relevant to currency strings); `inf`/`nan` spellings and
digit-group underscores are outside the model and parse to `none`, i.e.
they coerce to 0 in `_get_numeric_value` below.
-/

/-- Decimal value of a digit run. -/
def digitsVal (l : List Char) : Nat :=
  l.foldl (fun n c => 10 * n + (c.toNat - 48)) 0

/-- A parsed float literal: sign, integer digits, fractional digits (with
their count), exponent sign and exponent digits. Kept in `Nat`/`Bool` form
so that parsing is kernel-decidable; the rational value is taken separately
by `floatLitVal`. -/
structure FloatLit where
  neg : Bool
  ip : Nat
  fp : Nat
  fplen : Nat
  expNeg : Bool
  ex : Nat
deriving Repr, DecidableEq

/-- Exponent suffix of a float literal: `[+|-] digits`. -/
def parseExpPart (f : FloatLit) (t : List Char) : Option FloatLit :=
  let (pos, t1) : Bool × List Char :=
    match t with
    | '+' :: u => (true, u)
    | '-' :: u => (false, u)
    | u => (true, u)
  let ed := t1.takeWhile Char.isDigit
  let rest := t1.dropWhile Char.isDigit
  if ed.isEmpty || !rest.isEmpty then none
  else some { f with expNeg := !pos, ex := digitsVal ed }

/-- Parse a Python float literal (sign, digits, point, exponent). -/
def parseFloatLit? (s : String) : Option FloatLit :=
  let l0 := stripChars s.data
  let (neg, l1) : Bool × List Char :=
    match l0 with
    | '+' :: t => (false, t)
    | '-' :: t => (true, t)
    | t => (false, t)
  let ip := l1.takeWhile Char.isDigit
  let r1 := l1.dropWhile Char.isDigit
  let (fp, r2) : List Char × List Char :=
    match r1 with
    | '.' :: t => (t.takeWhile Char.isDigit, t.dropWhile Char.isDigit)
    | t => ([], t)
  if ip.isEmpty && fp.isEmpty then none
  else
    let f : FloatLit :=
      { neg := neg, ip := digitsVal ip, fp := digitsVal fp, fplen := fp.length,
        expNeg := false, ex := 0 }
    match r2 with
    | [] => some f
    | 'e' :: t => parseExpPart f t
    | 'E' :: t => parseExpPart f t
    | _ => none

/-- Exact rational value of a parsed float literal. -/
def floatLitVal (f : FloatLit) : Rat :=
  let m : Rat := (f.ip : Rat) + (f.fp : Rat) / (10 : Rat) ^ f.fplen
  let sm : Rat := if f.neg then -m else m
  if f.expNeg then sm / (10 : Rat) ^ f.ex else sm * (10 : Rat) ^ f.ex

/-- Python `float(s)` on a string, as an exact rational (`none` = `ValueError`). -/
def pyFloat? (s : String) : Option Rat :=
  (parseFloatLit? s).map floatLitVal

/-- A dynamically-typed Python value as seen by `_get_numeric_value`. -/
inductive PyVal where
  | num (q : Rat)
  | str (s : String)
  | other
deriving Repr, DecidableEq

/-- `value.replace('$', '').replace(',', '')`. -/
def stripCurrency (s : String) : String :=
  ⟨s.data.filter (fun c => c != '$' && c != ',')⟩

/-- `PaintingAppraiser._get_numeric_value` (appraise.py 914–923): numeric
values pass through, strings are parsed after stripping `$` and `,`, and
anything unparseable (or of any other type) coerces to 0. -/
def getNumericValue : PyVal → Rat
  | .num q => q
  | .str s =>
    match pyFloat? (stripCurrency s) with
    | some q => q
    | none => 0
  | .other => 0

/-! ## `_is_valid_product_image` (appraise.py 139–181) -/

/-- The denylist of non-product asset patterns (appraise.py 150–155). -/
def excludePatterns : List String :=
  ["logo", "icon", "banner", "header", "footer", "nav", "menu",
   "button", "arrow", "star", "heart", "cart", "search",
   "facebook", "twitter", "instagram", "social",
   "general/logo.svg", "sprites", "ui/"]

/-- Accepted image file extensions (appraise.py 162). -/
def imageExtensions : List String := [".jpg", ".jpeg", ".png", ".gif", ".webp", ".svg"]

/-- Product-looking URL patterns (appraise.py 166–168). -/
def goodPatterns : List String := ["/item/", "product", "listing", "auction", "/items/"]

/-- `PaintingAppraiser._is_valid_product_image` (appraise.py 139–181). -/
def isValidProductImage (image_url : String) : Bool :=
  if image_url = "" then false
  else
    let url_lower := lowerStr image_url
    if excludePatterns.any (fun pat => strContainsSub url_lower pat) then false
    else if !(imageExtensions.any fun ext => strContainsSub url_lower ext) then false
    else if strContainsSub url_lower "shopgoodwillimages.azureedge.net" &&
            strContainsSub url_lower "/items/" then true
    else if goodPatterns.any (fun pat => strContainsSub url_lower pat) then true
    else true

/-- The URL (lower-cased) matches the denylist. -/
def hasExcludedPattern (image_url : String) : Bool :=
  excludePatterns.any (fun pat => strContainsSub (lowerStr image_url) pat)

/-- The URL (lower-cased) contains an accepted image file extension. -/
def hasAcceptedExtension (image_url : String) : Bool :=
  imageExtensions.any (fun ext => strContainsSub (lowerStr image_url) ext)

/-! ## Data model (appraise.py 45–112)

`PaintingInfo.api_data` is an opaque raw payload never read by the
controller, persistence or sorting logic, and is omitted from the model.
Float fields are modelled as `Rat`.
-/

/-- `PaintingInfo` (appraise.py 45–54). -/
structure PaintingInfo where
  url : String
  title : String
  image_url : Option String := none
  image_urls : List String := []
  current_price : String := "Unknown"
  description : String := ""
  item_id : Option String := none
deriving Repr, DecidableEq

/-- `AppraisalResponse` (appraise.py 86–111): the structured record the
oracle returns. -/
structure AppraisalResponse where
  estimated_value_min : Rat
  estimated_value_max : Rat
  estimated_value_best : Rat
  confidence_level : String
  reasoning : String
  risk_factors : String
  market_category : String
  web_search_summary : String
  recent_sales_data : String
  artist_market_status : String
  authentication_notes : String
  comparable_works : String
  artist : String
  description_summary : String
  medium : String
  dimensions : String
  style : String
  time_period : String
  subject_matter : String
  condition : String
  quality : String
  signature_details : String
  back_markings : String
  frame_construction : String
deriving Repr, DecidableEq

/-- `Appraisal` (appraise.py 57–83): response fields plus the painting. -/
structure Appraisal where
  estimated_value_min : Rat
  estimated_value_max : Rat
  estimated_value_best : Rat
  confidence_level : String
  reasoning : String
  risk_factors : String
  market_category : String
  web_search_summary : String
  recent_sales_data : String
  artist_market_status : String
  authentication_notes : String
  comparable_works : String
  artist : String
  description_summary : String
  medium : String
  dimensions : String
  style : String
  time_period : String
  subject_matter : String
  condition : String
  quality : String
  signature_details : String
  back_markings : String
  frame_construction : String
  painting_info : PaintingInfo
deriving Repr, DecidableEq

/-- Listing URL of an appraised painting. -/
def urlOf (a : Appraisal) : String := a.painting_info.url

/-- Building the `Appraisal` returned by `appraise_painting`
(appraise.py 566–592). -/
def mkAppraisal (r : AppraisalResponse) (p : PaintingInfo) : Appraisal :=
  { estimated_value_min := r.estimated_value_min
    estimated_value_max := r.estimated_value_max
    estimated_value_best := r.estimated_value_best
    confidence_level := r.confidence_level
    reasoning := r.reasoning
    risk_factors := r.risk_factors
    market_category := r.market_category
    web_search_summary := r.web_search_summary
    recent_sales_data := r.recent_sales_data
    artist_market_status := r.artist_market_status
    authentication_notes := r.authentication_notes
    comparable_works := r.comparable_works
    artist := r.artist
    description_summary := r.description_summary
    medium := r.medium
    dimensions := r.dimensions
    style := r.style
    time_period := r.time_period
    subject_matter := r.subject_matter
    condition := r.condition
    quality := r.quality
    signature_details := r.signature_details
    back_markings := r.back_markings
    frame_construction := r.frame_construction
    painting_info := p }

/-! ## `appraise_painting` (appraise.py 404–619)

The OpenAI call is the opaque oracle; every transport/parse error inside
the call is caught by the function's own `try`, so the stub returns an
`Option`. The second component records whether the oracle was invoked.
-/

/-- `available_images` (appraise.py 415): all image URLs, falling back to
the primary image; note Python truthiness makes an empty-string primary
image count as absent. -/
def availableImages (p : PaintingInfo) : List String :=
  if !p.image_urls.isEmpty then p.image_urls
  else
    match p.image_url with
    | some u => if u = "" then [] else [u]
    | none => []

/-- `max_images` truncation (appraise.py 422–424). -/
def truncImages (maxImages : Option Nat) (l : List String) : List String :=
  match maxImages with
  | some m => if l.length > m then l.take m else l
  | none => l

/-- `PaintingAppraiser.appraise_painting` (appraise.py 404–619) against an
oracle stub. Returns the appraisal (if any) and whether the oracle was
invoked. -/
def appraisePainting (maxImages : Option Nat)
    (oracle : PaintingInfo → List String → Option AppraisalResponse)
    (p : PaintingInfo) : Option Appraisal × Bool :=
  let available := availableImages p
  if available.isEmpty then (none, false)
  else
    let available := truncImages maxImages available
    match oracle p available with
    | none => (none, true)
    | some r => (some (mkAppraisal r p), true)

/-! ## The persisted artifact (`appraisals.csv`)

Modelled as `Option (List Row)`: `none` is a missing file
(`FileNotFoundError` on load), `some rows` a CSV with one structured row
per appraisal, carrying exactly the columns `save_appraisals` writes.
-/

/-- One CSV row (the flattened dict of appraise.py 691–722). -/
structure Row where
  estimated_value_best : Rat
  estimated_value_min : Rat
  estimated_value_max : Rat
  confidence_level : String
  market_category : String
  reasoning : String
  risk_factors : String
  web_search_summary : String
  recent_sales_data : String
  artist_market_status : String
  authentication_notes : String
  comparable_works : String
  artist : String
  description_summary : String
  medium : String
  dimensions : String
  style : String
  time_period : String
  subject_matter : String
  condition : String
  quality : String
  signature_details : String
  back_markings : String
  frame_construction : String
  title : String
  current_price : String
  url : String
  image_url : String
  image_urls : String
  description : String
deriving Repr, DecidableEq

/-- Flattening an `Appraisal` into a CSV row (appraise.py 691–722). -/
def rowOfAppraisal (a : Appraisal) : Row :=
  { estimated_value_best := a.estimated_value_best
    estimated_value_min := a.estimated_value_min
    estimated_value_max := a.estimated_value_max
    confidence_level := a.confidence_level
    market_category := a.market_category
    reasoning := a.reasoning
    risk_factors := a.risk_factors
    web_search_summary := a.web_search_summary
    recent_sales_data := a.recent_sales_data
    artist_market_status := a.artist_market_status
    authentication_notes := a.authentication_notes
    comparable_works := a.comparable_works
    artist := a.artist
    description_summary := a.description_summary
    medium := a.medium
    dimensions := a.dimensions
    style := a.style
    time_period := a.time_period
    subject_matter := a.subject_matter
    condition := a.condition
    quality := a.quality
    signature_details := a.signature_details
    back_markings := a.back_markings
    frame_construction := a.frame_construction
    title := a.painting_info.title
    current_price := a.painting_info.current_price
    url := a.painting_info.url
    image_url := a.painting_info.image_url.getD ""
    image_urls := if a.painting_info.image_urls.isEmpty then "" else
      joinSemi a.painting_info.image_urls
    description := a.painting_info.description }

/-- The `image_urls` cell parse on load (appraise.py 631–632):
`[url.strip() for url in s.split(';') if url.strip()]`, guarded by the cell
being non-empty. -/
def parseImageUrlsCell (s : String) : List String :=
  if s = "" then []
  else ((pySplitSemi s).map pyStrip).filter (fun u => u ≠ "")

/-- Rebuilding an `Appraisal` from a CSV row (appraise.py 628–670). The
`item_id` and raw payload are not stored in the CSV, so they come back as
their defaults. -/
def appraisalOfRow (r : Row) : Appraisal :=
  { estimated_value_min := r.estimated_value_min
    estimated_value_max := r.estimated_value_max
    estimated_value_best := r.estimated_value_best
    confidence_level := r.confidence_level
    reasoning := r.reasoning
    risk_factors := r.risk_factors
    market_category := r.market_category
    web_search_summary := r.web_search_summary
    recent_sales_data := r.recent_sales_data
    artist_market_status := r.artist_market_status
    authentication_notes := r.authentication_notes
    comparable_works := r.comparable_works
    artist := r.artist
    description_summary := r.description_summary
    medium := r.medium
    dimensions := r.dimensions
    style := r.style
    time_period := r.time_period
    subject_matter := r.subject_matter
    condition := r.condition
    quality := r.quality
    signature_details := r.signature_details
    back_markings := r.back_markings
    frame_construction := r.frame_construction
    painting_info :=
      { url := r.url
        title := r.title
        image_url := some r.image_url
        image_urls := parseImageUrlsCell r.image_urls
        current_price := r.current_price
        description := r.description } }

/-- The `data` dict threaded through `run_appraisal`, `load_appraisals`
and `save_appraisals`. -/
structure PipelineData where
  appraisals : List Appraisal
  processed_urls : Finset String
  last_page : Nat
  last_item : Nat
deriving DecidableEq

/-- `PaintingAppraiser.load_appraisals` (appraise.py 621–681). Every exit
(success, missing file, parse error) carries `last_page = 0` and
`last_item = 0`; the processed set is rebuilt from the rows' `url` column
only. -/
def loadAppraisals : Option (List Row) → PipelineData
  | none => ⟨[], ∅, 0, 0⟩
  | some rows => ⟨rows.map appraisalOfRow, (rows.map Row.url).toFinset, 0, 0⟩

/-- Stable descending insertion by a rational key: the model of both
`df.sort_values('estimated_value_best', ascending=False)` and Python
`list.sort(key=..., reverse=True)`. `x` is placed in front of the first
element whose key is `≤ key x`, so earlier elements win ties. -/
def insertByDesc (key : α → Rat) (x : α) : List α → List α
  | [] => [x]
  | y :: ys => if key y ≤ key x then x :: y :: ys else y :: insertByDesc key x ys

/-- Deterministic stable sort, descending by `key`. -/
def sortByDesc (key : α → Rat) : List α → List α
  | [] => []
  | x :: xs => insertByDesc key x (sortByDesc key xs)

/-- `PaintingAppraiser.save_appraisals` (appraise.py 683–746): flattens
`data["appraisals"]` (the other `data` fields are never read), sorts the
rows by descending `estimated_value_best`, and overwrites the file. On an
empty appraisal list pandas raises inside the function (selecting columns
of an empty frame), the error is swallowed, and the file is left
untouched. -/
def saveAppraisals (data : PipelineData) (file : Option (List Row)) : Option (List Row) :=
  let rows := data.appraisals.map rowOfAppraisal
  if rows.isEmpty then file
  else some (sortByDesc Row.estimated_value_best rows)

/-! ## `run_appraisal` (appraise.py 748–866)

Deterministic stubs:
* `listing` is `get_paintings_list` (appraise.py 183–302): one page of
  summaries, `[]` for both end-of-data and a caught transport error;
* `detail` is `get_painting_details` (appraise.py 304–402) keyed by the
  item URL; its own `try` converts every error to `none`, and it always
  returns the record with `url` set to the requested URL (appraise.py 390);
* `oracle` is the OpenAI call inside `appraise_painting`;
* `raises` marks items whose loop body raises an `Exception` that escapes
  into the per-item handler (appraise.py 832–843) — modelled as raising at
  the top of the body, before the detail fetch;
* `maxImages` is the `max_images` configuration.

`run_appraisal` is executed with an optional item budget: a budget of `k`
models a `KeyboardInterrupt` (which no `except Exception` catches) firing
at the start of item iteration `k + 1`; the `finally` block still runs the
terminal save. The trace records service calls, `save_appraisals`
invocations and `time.sleep` calls, and a state snapshot
(appraisals, processed set) is taken after every item iteration.
-/

/-- The deterministic stubs and configuration for one run. -/
structure Stubs where
  listing : Nat → List PaintingInfo
  detail : String → Option PaintingInfo
  oracle : PaintingInfo → List String → Option AppraisalResponse
  raises : String → Bool
  maxImages : Option Nat := none

/-- Observable events of a run. -/
inductive Event where
  | fetchList (page : Nat)
  | fetchDetail (url : String)
  | oracleCall (url : String)
  | saveEvent
  | sleepItem
  | sleepPage
deriving Repr, DecidableEq

/-- The run-time state of `run_appraisal`: the two locals
(`appraisals_list`, `processed_urls`), the cursor fields last written into
the `data` dict, the durable file, the event trace, per-item state
snapshots, the remaining interruption budget, and the two control flags
(interrupt raised / pagination stopped by an empty page). -/
structure RunState where
  appraisals : List Appraisal
  processed : Finset String
  dataLastPage : Nat
  dataLastItem : Nat
  file : Option (List Row)
  events : List Event
  snaps : List (List Appraisal × Finset String)
  budget : Option Nat
  interrupted : Bool
  stopped : Bool

/-- A call to `save_appraisals` with the current data. -/
def doSave (s : RunState) : RunState :=
  { s with
    file := saveAppraisals ⟨s.appraisals, s.processed, s.dataLastPage, s.dataLastItem⟩ s.file
    events := s.events ++ [Event.saveEvent] }

/-- Record a state snapshot after an item iteration. -/
def pushSnap (s : RunState) : RunState :=
  { s with snaps := s.snaps ++ [(s.appraisals, s.processed)] }

/-- Consume one unit of interruption budget. -/
def decBudget (s : RunState) : RunState :=
  { s with budget := s.budget.map (· - 1) }

/-- One iteration of the inner item loop (appraise.py 781–843). -/
def processItem (st : Stubs) (page : Nat) (it : Nat × PaintingInfo) (s : RunState) : RunState :=
  if s.stopped = true ∨ s.interrupted = true then s
  else if s.budget = some 0 then { s with interrupted := true }
  else
    let s := decBudget s
    let i := it.1
    let p := it.2
    if p.url ∈ s.processed then pushSnap s
    else if st.raises p.url then
      -- per-item except handler (appraise.py 832–843): mark processed,
      -- update the data cursors, save, continue; no sleep
      pushSnap (doSave
        { s with processed := insert p.url s.processed
                 dataLastPage := page, dataLastItem := i + 1 })
    else
      let s := { s with events := s.events ++ [Event.fetchDetail p.url] }
      match st.detail p.url with
      | none =>
        -- detail fetch failed (appraise.py 794–796): mark processed, continue
        pushSnap { s with processed := insert p.url s.processed }
      | some d0 =>
        let d : PaintingInfo := { d0 with url := p.url }
        let rc := appraisePainting st.maxImages st.oracle d
        let s := { s with events := s.events ++ (if rc.2 then [Event.oracleCall p.url] else []) }
        match rc.1 with
        | none =>
          -- appraisal failed (appraise.py 800–802): mark processed, continue
          pushSnap { s with processed := insert p.url s.processed }
        | some a =>
          let s :=
            { s with appraisals := s.appraisals ++ [a]
                     processed := insert p.url s.processed
                     dataLastPage := page, dataLastItem := i + 1 }
          let s := if (i + 1) % 5 = 0 then doSave s else s
          pushSnap { s with events := s.events ++ [Event.sleepItem] }

/-- The inner item loop. -/
def processItems (st : Stubs) (page : Nat) (its : List (Nat × PaintingInfo))
    (s : RunState) : RunState :=
  its.foldl (fun s it => processItem st page it s) s

/-- One iteration of the page loop (appraise.py 768–858). -/
def processPage (st : Stubs) (startPage startItem : Nat) (page : Nat) (s : RunState) : RunState :=
  if s.stopped = true ∨ s.interrupted = true then s
  else
    let paintings := st.listing page
    let s := { s with events := s.events ++ [Event.fetchList page] }
    if paintings.isEmpty then { s with stopped := true }
    else
      let startIndex := if page = startPage then startItem else 0
      let s := processItems st page ((paintings.drop startIndex).enumFrom startIndex) s
      if s.interrupted = true then s
      else
        let s := doSave { s with dataLastPage := page + 1, dataLastItem := 0 }
        { s with events := s.events ++ [Event.sleepPage] }

/-- Final state and returned value of a run. `result` is `none` when the
run was cut by the modelled interrupt (the exception propagates after the
`finally` save instead of returning the sorted list). -/
structure RunResult where
  state : RunState
  result : Option (List Appraisal)

/-- Sort key for the returned list (appraise.py 864). -/
def appraisalSortKey (a : Appraisal) : Rat :=
  getNumericValue (PyVal.num a.estimated_value_best)

/-- `PaintingAppraiser.run_appraisal` (appraise.py 748–866). -/
def runAppraisal (st : Stubs) (maxPages : Nat) (file : Option (List Row))
    (budget : Option Nat) : RunResult :=
  let d := loadAppraisals file
  let startPage := max 1 d.last_page
  let startItem := d.last_item
  let s0 : RunState :=
    { appraisals := d.appraisals, processed := d.processed_urls
      dataLastPage := d.last_page, dataLastItem := d.last_item
      file := file, events := [], snaps := [(d.appraisals, d.processed_urls)]
      budget := budget, interrupted := false, stopped := false }
  let s1 := (List.range' startPage (maxPages + 1 - startPage)).foldl
      (fun s page => processPage st startPage startItem page s) s0
  let s2 := doSave s1
  { state := s2
    result := if s2.interrupted = true then none
              else some (sortByDesc appraisalSortKey s2.appraisals) }

/-! ## Predicates used by the theorems -/

/-- In-memory invariant of a run state: appraisal source URLs are pairwise
distinct and all belong to the processed set. -/
def StInv (s : RunState) : Prop :=
  (s.appraisals.map urlOf).Nodup ∧ ∀ a ∈ s.appraisals, urlOf a ∈ s.processed

/-- The claimed per-snapshot property: at least as many processed URLs as
valuations, and every valuation's source URL processed. -/
def SnapInv (x : List Appraisal × Finset String) : Prop :=
  x.1.length ≤ x.2.card ∧ ∀ a ∈ x.1, urlOf a ∈ x.2

/-- Run-long invariant: the in-memory invariant, the per-snapshot
property for every snapshot, monotone growth of the processed set along
the snapshot chain, and the last snapshot being below the current state. -/
def GoodRun (s : RunState) : Prop :=
  StInv s ∧ (∀ x ∈ s.snaps, SnapInv x) ∧
  s.snaps.Chain' (fun x y => x.2 ⊆ y.2) ∧
  (∀ x ∈ s.snaps.getLast?, x.2 ⊆ s.processed)

/-- An image URL that survives the CSV `';'.join` / `split(';')` +
`strip()` round trip unchanged: non-empty, whitespace-trimmed, and free of
the `';'` separator. URLs built by `get_painting_details`
(appraise.py 376–379: stripped path appended to the image-server base)
have this form. -/
def CleanUrl (u : String) : Prop :=
  u ≠ "" ∧ pyStrip u = u ∧ ';' ∉ u.data

/-- All image URLs of an appraisal's painting record are clean. -/
def CleanApp (a : Appraisal) : Prop :=
  ∀ u ∈ a.painting_info.image_urls, CleanUrl u

/-- The detail stub only produces clean image URLs (as the real
`get_painting_details` does). -/
def DetailClean (st : Stubs) : Prop :=
  ∀ u d, st.detail u = some d → ∀ x ∈ d.image_urls, CleanUrl x

instance (u : String) : Decidable (CleanUrl u) := by
  unfold CleanUrl
  infer_instance

instance (a : Appraisal) : Decidable (CleanApp a) := by
  unfold CleanApp
  infer_instance

/-- The persistence normalization: what one save/load round trip does to a
painting record — `item_id` (and the raw payload) are not stored, an
absent primary image comes back as the empty string, clean image URL lists
survive unchanged. -/
def normPainting (p : PaintingInfo) : PaintingInfo :=
  { url := p.url, title := p.title
    image_url := some (p.image_url.getD "")
    image_urls := p.image_urls
    current_price := p.current_price
    description := p.description
    item_id := none }

/-- The persistence normalization of a whole appraisal. -/
def normApp (a : Appraisal) : Appraisal :=
  { a with painting_info := normPainting a.painting_info }

/-! ## Sample data (used by concrete witnesses and counterexamples) -/

/-- An oracle response with a best estimate of 100. -/
def resp100 : AppraisalResponse :=
  { estimated_value_min := 50, estimated_value_max := 150, estimated_value_best := 100
    confidence_level := "low", reasoning := "", risk_factors := "", market_category := ""
    web_search_summary := "", recent_sales_data := "", artist_market_status := ""
    authentication_notes := "", comparable_works := "", artist := ""
    description_summary := "", medium := "", dimensions := "", style := ""
    time_period := "", subject_matter := "", condition := "", quality := ""
    signature_details := "", back_markings := "", frame_construction := "" }

/-- An oracle response with a best estimate of 50. -/
def resp50 : AppraisalResponse :=
  { resp100 with estimated_value_min := 10, estimated_value_max := 80, estimated_value_best := 50 }

/-- Listing summary of item A (no usable detail in the failing stubs). -/
def pInfoA : PaintingInfo := { url := "https://shopgoodwill.com/item/1", title := "A" }

/-- Listing summary of item B. -/
def pInfoB : PaintingInfo := { url := "https://shopgoodwill.com/item/2", title := "B" }

/-- Detail record of item B with one image. -/
def pDetailB : PaintingInfo :=
  { pInfoB with image_urls := ["https://shopgoodwillimages.azureedge.net/production/items/2.jpg"]
                image_url := some "https://shopgoodwillimages.azureedge.net/production/items/2.jpg"
                item_id := some "2" }

/-- Demo stubs: page 1 holds items A (detail fetch fails) and B (appraised
at 100); page 2 is empty. -/
def demoStubs : Stubs :=
  { listing := fun page => if page = 1 then [pInfoA, pInfoB] else []
    detail := fun u => if u = pInfoB.url then some pDetailB else none
    oracle := fun _ _ => some resp100
    raises := fun _ => false }

/-- Failing stubs: page 1 holds five items whose detail fetch always
fails; page 2 is empty. -/
def failStubs : Stubs :=
  { listing := fun page => if page = 1 then
      [{ url := "u1", title := "1" }, { url := "u2", title := "2" },
       { url := "u3", title := "3" }, { url := "u4", title := "4" },
       { url := "u5", title := "5" }] else []
    detail := fun _ => none
    oracle := fun _ _ => none
    raises := fun _ => false }

/-- A sample appraisal of item B with best estimate 100 and clean fields. -/
def appB : Appraisal := mkAppraisal resp100 pDetailB

/-- A sample appraisal of item B with best estimate 50. -/
def app50 : Appraisal := mkAppraisal resp50 pDetailB

/-- A pipeline state with an appraisal for item B only, but both A and B
in the processed set (A was processed without a valuation). -/
def dataC2 : PipelineData := ⟨[appB], {pInfoA.url, pInfoB.url}, 0, 0⟩

/-- A fresh run state (what a run starting without a file begins from). -/
def freshState : RunState :=
  { appraisals := [], processed := ∅, dataLastPage := 0, dataLastItem := 0
    file := none, events := [], snaps := [([], ∅)]
    budget := none, interrupted := false, stopped := false }

/-- Stubs for the interruption counterexample: one page with items A and
B, every detail fetch failing. -/
def failStubsAB : Stubs :=
  { listing := fun page => if page = 1 then
      [{ url := "A", title := "a" }, { url := "B", title := "b" }] else []
    detail := fun _ => none
    oracle := fun _ _ => none
    raises := fun _ => false }

/-! ## Relations for the resumption argument (claim C1) -/

/-- The observable core two lockstep runs share. -/
def EqCore (a b : RunState) : Prop :=
  a.appraisals = b.appraisals ∧ a.processed = b.processed ∧
  a.stopped = b.stopped ∧ a.file = b.file

/-- Relation between a budget-limited run (`sb`) and the unlimited run
(`su`) over the same stubs: before the budget runs out the states agree on
the observable core; afterwards `sb` is frozen while `su` keeps extending
it, appending only appraisals whose URLs `sb` never processed. -/
def CutRel (sb su : RunState) : Prop :=
  su.interrupted = false ∧ su.budget = none ∧
  ((sb.interrupted = false ∧ EqCore sb su) ∨
    (sb.interrupted = true ∧ sb.processed ⊆ su.processed ∧
      ∃ t, su.appraisals = sb.appraisals ++ t ∧ ∀ a ∈ t, urlOf a ∉ sb.processed))

/-- Relation between the resumed run (`s2`, started from the saved
artifact: `P0` the loaded processed set, `L0` the loaded appraisals) and
the fresh uninterrupted run (`su`): the resumed state is the fresh state
shifted by the loaded data, and the resumed run never fetches or appraises
a URL of the loaded processed set. -/
def ResRel (P0 : Finset String) (L0 : List Appraisal) (s2 su : RunState) : Prop :=
  s2.processed = P0 ∪ su.processed ∧
  s2.appraisals = L0 ++ su.appraisals.filter (fun a => decide (urlOf a ∉ P0)) ∧
  s2.stopped = su.stopped ∧ s2.interrupted = false ∧ su.interrupted = false ∧
  s2.budget = none ∧ su.budget = none ∧
  (∀ u, Event.fetchDetail u ∈ s2.events → u ∉ P0) ∧
  (∀ u, Event.oracleCall u ∈ s2.events → u ∉ P0)

/-- All appraisals held by a state have clean image URL lists. -/
def CleanState (s : RunState) : Prop := ∀ a ∈ s.appraisals, CleanApp a

/-- A run that has not collected any appraisal has never overwritten its
(initially absent) file. -/
def EmptyFileInv (s : RunState) : Prop := s.appraisals = [] → s.file = none

/-- `s` extends `base`: the processed set grew and the appraisal list
gained only URLs `base` had not processed. -/
def ExtendShape (base s : RunState) : Prop :=
  base.processed ⊆ s.processed ∧
  ∃ t, s.appraisals = base.appraisals ++ t ∧ ∀ a ∈ t, urlOf a ∉ base.processed

/-! ## Path characterizations of `processItem` -/

theorem processItem_frozen (st : Stubs) (page : Nat) (it : Nat × PaintingInfo) (s : RunState)
    (h : s.stopped = true ∨ s.interrupted = true) :
    processItem st page it s = s := by
  simp only [processItem, h]
  simp

theorem processItem_interrupt (st : Stubs) (page : Nat) (it : Nat × PaintingInfo) (s : RunState)
    (h0 : s.stopped = false) (h1 : s.interrupted = false) (h2 : s.budget = some 0) :
    processItem st page it s = { s with interrupted := true } := by
  simp only [processItem, h0, h1, h2]
  simp

theorem processItem_skip (st : Stubs) (page : Nat) (i : Nat) (p : PaintingInfo) (s : RunState)
    (h0 : s.stopped = false) (h1 : s.interrupted = false) (h2 : ¬ s.budget = some 0)
    (h3 : p.url ∈ s.processed) :
    processItem st page (i, p) s = pushSnap (decBudget s) := by
  simp only [processItem, h0, h1, h2]
  simp [decBudget, h3]

theorem processItem_raise (st : Stubs) (page : Nat) (i : Nat) (p : PaintingInfo) (s : RunState)
    (h0 : s.stopped = false) (h1 : s.interrupted = false) (h2 : ¬ s.budget = some 0)
    (h3 : p.url ∉ s.processed) (h4 : st.raises p.url = true) :
    processItem st page (i, p) s =
      pushSnap (doSave
        { decBudget s with processed := insert p.url s.processed
                           dataLastPage := page, dataLastItem := i + 1 }) := by
  simp only [processItem, h0, h1, h2]
  simp [decBudget, h3, h4]

theorem processItem_noDetail (st : Stubs) (page : Nat) (i : Nat) (p : PaintingInfo) (s : RunState)
    (h0 : s.stopped = false) (h1 : s.interrupted = false) (h2 : ¬ s.budget = some 0)
    (h3 : p.url ∉ s.processed) (h4 : st.raises p.url = false)
    (h5 : st.detail p.url = none) :
    processItem st page (i, p) s =
      pushSnap { decBudget s with events := s.events ++ [Event.fetchDetail p.url]
                                  processed := insert p.url s.processed } := by
  simp only [processItem, h0, h1, h2]
  simp [decBudget, h3, h4, h5]

theorem processItem_noAppraisal (st : Stubs) (page : Nat) (i : Nat) (p : PaintingInfo)
    (s : RunState) (d0 : PaintingInfo)
    (h0 : s.stopped = false) (h1 : s.interrupted = false) (h2 : ¬ s.budget = some 0)
    (h3 : p.url ∉ s.processed) (h4 : st.raises p.url = false)
    (h5 : st.detail p.url = some d0)
    (h6 : (appraisePainting st.maxImages st.oracle { d0 with url := p.url }).1 = none) :
    processItem st page (i, p) s =
      pushSnap { decBudget s with
        events := (s.events ++ [Event.fetchDetail p.url]) ++
          (if (appraisePainting st.maxImages st.oracle { d0 with url := p.url }).2 then
            [Event.oracleCall p.url] else [])
        processed := insert p.url s.processed } := by
  simp only [processItem, h0, h1, h2]
  simp [decBudget, h3, h4, h5, h6]

theorem processItem_success (st : Stubs) (page : Nat) (i : Nat) (p : PaintingInfo)
    (s : RunState) (d0 : PaintingInfo) (a : Appraisal) (c : Bool)
    (h0 : s.stopped = false) (h1 : s.interrupted = false) (h2 : ¬ s.budget = some 0)
    (h3 : p.url ∉ s.processed) (h4 : st.raises p.url = false)
    (h5 : st.detail p.url = some d0)
    (h6 : appraisePainting st.maxImages st.oracle { d0 with url := p.url } = (some a, c)) :
    (processItem st page (i, p) s).appraisals = s.appraisals ++ [a] ∧
    (processItem st page (i, p) s).processed = insert p.url s.processed ∧
    (processItem st page (i, p) s).events =
      s.events ++ [Event.fetchDetail p.url] ++
        (if c then [Event.oracleCall p.url] else []) ++
        (if (i + 1) % 5 = 0 then [Event.saveEvent] else []) ++ [Event.sleepItem] ∧
    (processItem st page (i, p) s).budget = s.budget.map (· - 1) ∧
    (processItem st page (i, p) s).interrupted = false ∧
    (processItem st page (i, p) s).stopped = false ∧
    (processItem st page (i, p) s).snaps =
      s.snaps ++ [(s.appraisals ++ [a], insert p.url s.processed)] ∧
    (processItem st page (i, p) s).dataLastPage = page ∧
    (processItem st page (i, p) s).dataLastItem = i + 1 ∧
    (processItem st page (i, p) s).file =
      (if (i + 1) % 5 = 0 then
        saveAppraisals ⟨s.appraisals ++ [a], insert p.url s.processed, page, i + 1⟩ s.file
      else s.file) := by
  simp only [processItem, h0, h1, h2]
  simp only [decBudget, h3, h4, h5, h6]
  by_cases h7 : (i + 1) % 5 = 0 <;>
    simp [h7, h0, h1, pushSnap, doSave, List.append_assoc]

/-- A successful `appraise_painting` returns the appraisal built on the
very detail record it was given. -/
theorem appraisePainting_painting_info (mi : Option Nat)
    (oracle : PaintingInfo → List String → Option AppraisalResponse)
    (d : PaintingInfo) (a : Appraisal)
    (h : (appraisePainting mi oracle d).1 = some a) : a.painting_info = d := by
  simp only [appraisePainting] at h
  split at h
  · simp at h
  · split at h
    · simp at h
    · simp at h
      rw [← h]
      rfl

/-- Reassociation helper: a four-fold append extends the original list. -/
theorem suffix_of_append4 {α} (l a b c d : List α) :
    ∃ t, (((l ++ a) ++ b) ++ c) ++ d = l ++ t :=
  ⟨a ++ (b ++ (c ++ d)), by simp [List.append_assoc]⟩

/-- Structural facts shared by every path of `processItem`: the processed
set only grows, appraisals are only appended (one at a time, for an
unprocessed URL that then enters the processed set), events and snapshots
are only appended (new snapshots coincide with the resulting state), the
`stopped` flag is untouched, and a run without an interruption budget
never raises the interrupt flag. -/
theorem processItem_shape (st : Stubs) (page : Nat) (it : Nat × PaintingInfo) (s : RunState) :
    s.processed ⊆ (processItem st page it s).processed ∧
    ((processItem st page it s).appraisals = s.appraisals ∧
        (processItem st page it s).processed ∈ ({s.processed, insert it.2.url s.processed} :
          Set (Finset String)) ∨
      ∃ a, (processItem st page it s).appraisals = s.appraisals ++ [a] ∧
        urlOf a = it.2.url ∧ it.2.url ∉ s.processed ∧
        (processItem st page it s).processed = insert it.2.url s.processed) ∧
    (∃ t, (processItem st page it s).events = s.events ++ t) ∧
    (∃ t, (processItem st page it s).snaps = s.snaps ++ t ∧
      ∀ x ∈ t, x = ((processItem st page it s).appraisals, (processItem st page it s).processed)) ∧
    (processItem st page it s).stopped = s.stopped ∧
    (s.budget = none →
      (processItem st page it s).budget = none ∧
      (processItem st page it s).interrupted = s.interrupted) := by
  obtain ⟨i, p⟩ := it
  by_cases hf : s.stopped = true ∨ s.interrupted = true
  · rw [processItem_frozen st page (i, p) s hf]
    simp
  · push_neg at hf
    have h0 : s.stopped = false := by simpa using hf.1
    have h1 : s.interrupted = false := by simpa using hf.2
    by_cases hb : s.budget = some 0
    · rw [processItem_interrupt st page (i, p) s h0 h1 hb]
      refine ⟨Finset.Subset.refl _, Or.inl ⟨rfl, by simp⟩, ⟨[], by simp⟩, ⟨[], by simp⟩, rfl, ?_⟩
      intro hn
      rw [hn] at hb
      simp at hb
    · by_cases hm : p.url ∈ s.processed
      · rw [processItem_skip st page i p s h0 h1 hb hm]
        simp [pushSnap, decBudget, h1]
      · by_cases hr : st.raises p.url = true
        · rw [processItem_raise st page i p s h0 h1 hb hm hr]
          simp [pushSnap, doSave, decBudget, h1, Finset.subset_insert]
        · rw [Bool.not_eq_true] at hr
          cases hd : st.detail p.url with
          | none =>
            rw [processItem_noDetail st page i p s h0 h1 hb hm hr hd]
            simp [pushSnap, decBudget, h1, Finset.subset_insert]
          | some d0 =>
            cases hres : (appraisePainting st.maxImages st.oracle { d0 with url := p.url }).1 with
            | none =>
              rw [processItem_noAppraisal st page i p s d0 h0 h1 hb hm hr hd hres]
              simp [pushSnap, decBudget, h1, Finset.subset_insert]
            | some a =>
              have hpair : appraisePainting st.maxImages st.oracle { d0 with url := p.url } =
                  (some a, (appraisePainting st.maxImages st.oracle { d0 with url := p.url }).2) := by
                rw [← hres]
              obtain ⟨e1, e2, e3, e4, e5, e6, e7, e8, e9, e10⟩ :=
                processItem_success st page i p s d0 a _ h0 h1 hb hm hr hd hpair
              refine ⟨?_, ?_, ?_, ?_, ?_, ?_⟩
              · rw [e2]
                exact Finset.subset_insert _ _
              · refine Or.inr ⟨a, e1, ?_, hm, e2⟩
                have := appraisePainting_painting_info st.maxImages st.oracle _ a hres
                simp [urlOf, this]
              · rw [e3]
                exact suffix_of_append4 _ _ _ _ _
              · exact ⟨_, e7, by simp [e1, e2]⟩
              · rw [e6, h0]
              · intro hn
                rw [e4, e5, hn, h1]
                simp

/-! ## Fold and chain helpers -/

theorem foldl_preserve {α β : Type _} (P : β → Prop) (f : β → α → β)
    (h : ∀ s x, P s → P (f s x)) : ∀ (l : List α) (s : β), P s → P (l.foldl f s) := by
  intro l
  induction l with
  | nil => intro s hs; exact hs
  | cons x xs ih => intro s hs; exact ih _ (h s x hs)

theorem foldl_rel {α β γ : Type _} (R : β → γ → Prop) (f : β → α → β) (g : γ → α → γ)
    (h : ∀ s t x, R s t → R (f s x) (g t x)) :
    ∀ (l : List α) (s : β) (t : γ), R s t → R (l.foldl f s) (l.foldl g t) := by
  intro l
  induction l with
  | nil => intro s t hs; exact hs
  | cons x xs ih => intro s t hs; exact ih _ _ (h s t x hs)

theorem chain_of_all_eq {α : Type _} (R : α → α → Prop) (z : α) (hz : R z z) :
    ∀ (t : List α), (∀ x ∈ t, x = z) → t.Chain' R := by
  intro t
  induction t with
  | nil => intro _; exact List.chain'_nil
  | cons x xs ih =>
    intro h
    cases xs with
    | nil => exact List.chain'_singleton x
    | cons y ys =>
      have hx := h x (by simp)
      have hy := h y (by simp)
      refine List.Chain'.cons ?_ (ih fun w hw => h w (List.mem_cons_of_mem x hw))
      rw [hx, hy]
      exact hz

/-! ## The pipeline invariants (claim C3's properties) -/

theorem StInv.card_le {s : RunState} (h : StInv s) :
    s.appraisals.length ≤ s.processed.card := by
  have h1 : (s.appraisals.map urlOf).toFinset.card = s.appraisals.length := by
    rw [List.toFinset_card_of_nodup h.1, List.length_map]
  rw [← h1]
  refine Finset.card_le_card ?_
  intro u hu
  rw [List.mem_toFinset, List.mem_map] at hu
  obtain ⟨a, ha, rfl⟩ := hu
  exact h.2 a ha

theorem StInv.snapInv {s : RunState} (h : StInv s) : SnapInv (s.appraisals, s.processed) :=
  ⟨h.card_le, h.2⟩

theorem stInv_processItem (st : Stubs) (page : Nat) (it : Nat × PaintingInfo) (s : RunState)
    (h : StInv s) : StInv (processItem st page it s) := by
  obtain ⟨hsub, happ, -, -, -, -⟩ := processItem_shape st page it s
  rcases happ with ⟨ha, -⟩ | ⟨a, ha, hu, hnew, hproc⟩
  · exact ⟨by rw [ha]; exact h.1, fun a hmem => hsub (h.2 a (by rwa [ha] at hmem))⟩
  · constructor
    · rw [ha, List.map_append, List.map_singleton]
      rw [List.nodup_append]
      refine ⟨h.1, List.nodup_singleton _, ?_⟩
      intro u hu1 hu2
      simp at hu2
      rw [List.mem_map] at hu1
      obtain ⟨b, hb, hbu⟩ := hu1
      apply hnew
      rw [← hu, ← hu2, ← hbu]
      exact h.2 b hb
    · intro b hb
      rw [ha, List.mem_append] at hb
      rcases hb with hb | hb
      · exact hsub (h.2 b hb)
      · simp at hb
        rw [hb, hu, hproc]
        exact Finset.mem_insert_self _ _

theorem goodRun_processItem (st : Stubs) (page : Nat) (it : Nat × PaintingInfo) (s : RunState)
    (h : GoodRun s) : GoodRun (processItem st page it s) := by
  obtain ⟨hinv, hsnap, hchain, hlast⟩ := h
  have hinv2 := stInv_processItem st page it s hinv
  obtain ⟨hsub, -, -, ⟨t, hsn, ht⟩, -, -⟩ := processItem_shape st page it s
  refine ⟨hinv2, ?_, ?_, ?_⟩
  · intro x hx
    rw [hsn, List.mem_append] at hx
    rcases hx with hx | hx
    · exact hsnap x hx
    · rw [ht x hx]
      exact hinv2.snapInv
  · rw [hsn, List.chain'_append]
    refine ⟨hchain, chain_of_all_eq
      (fun x y => x.2 ⊆ y.2)
      ((processItem st page it s).appraisals, (processItem st page it s).processed)
      (Finset.Subset.refl _) t ht, ?_⟩
    intro x hx y hy
    have := hlast x hx
    have hyz := ht y (List.mem_of_mem_head? hy)
    rw [hyz]
    exact this.trans hsub
  · intro x hx
    rw [hsn] at hx
    cases ht2 : t.isEmpty with
    | true =>
      rw [List.isEmpty_iff] at ht2
      rw [ht2, List.append_nil] at hx
      exact (hlast x hx).trans hsub
    | false =>
      rw [List.isEmpty_eq_false_iff_exists_mem] at ht2
      have htne : t ≠ [] := by
        rintro rfl
        simp at ht2
      rw [List.getLast?_append_of_ne_nil _ htne] at hx
      rw [ht x (List.mem_of_mem_getLast? hx)]

/-! ## Path characterizations of `processPage` -/

theorem processPage_frozen (st : Stubs) (sp si page : Nat) (s : RunState)
    (h : s.stopped = true ∨ s.interrupted = true) :
    processPage st sp si page s = s := by
  simp only [processPage, if_pos h]

theorem processPage_empty (st : Stubs) (sp si page : Nat) (s : RunState)
    (h0 : s.stopped = false) (h1 : s.interrupted = false)
    (h2 : (st.listing page).isEmpty = true) :
    processPage st sp si page s =
      { s with events := s.events ++ [Event.fetchList page], stopped := true } := by
  have hcond : ¬(s.stopped = true ∨ s.interrupted = true) := by simp [h0, h1]
  simp only [processPage, if_neg hcond, if_pos h2]

theorem processPage_items_interrupted (st : Stubs) (sp si page : Nat) (s : RunState)
    (h0 : s.stopped = false) (h1 : s.interrupted = false)
    (h2 : ¬ (st.listing page).isEmpty = true)
    (h3 : (processItems st page
        (((st.listing page).drop (if page = sp then si else 0)).enumFrom
          (if page = sp then si else 0))
        { s with events := s.events ++ [Event.fetchList page] }).interrupted = true) :
    processPage st sp si page s =
      processItems st page
        (((st.listing page).drop (if page = sp then si else 0)).enumFrom
          (if page = sp then si else 0))
        { s with events := s.events ++ [Event.fetchList page] } := by
  have hcond : ¬(s.stopped = true ∨ s.interrupted = true) := by simp [h0, h1]
  simp only [processPage, if_neg hcond, if_neg h2, h3]
  simp

theorem processPage_items_done (st : Stubs) (sp si page : Nat) (s : RunState)
    (h0 : s.stopped = false) (h1 : s.interrupted = false)
    (h2 : ¬ (st.listing page).isEmpty = true)
    (h3 : (processItems st page
        (((st.listing page).drop (if page = sp then si else 0)).enumFrom
          (if page = sp then si else 0))
        { s with events := s.events ++ [Event.fetchList page] }).interrupted = false) :
    processPage st sp si page s =
      (fun s2 =>
        { doSave { s2 with dataLastPage := page + 1, dataLastItem := 0 } with
          events := (doSave { s2 with dataLastPage := page + 1, dataLastItem := 0 }).events ++
            [Event.sleepPage] })
      (processItems st page
        (((st.listing page).drop (if page = sp then si else 0)).enumFrom
          (if page = sp then si else 0))
        { s with events := s.events ++ [Event.fetchList page] }) := by
  have hcond : ¬(s.stopped = true ∨ s.interrupted = true) := by simp [h0, h1]
  simp only [processPage, if_neg hcond, if_neg h2, h3]
  simp

/-! ## `GoodRun` across the whole run -/

theorem goodRun_fields (s s' : RunState) (h1 : s'.appraisals = s.appraisals)
    (h2 : s'.processed = s.processed) (h3 : s'.snaps = s.snaps) (h : GoodRun s) :
    GoodRun s' := by
  unfold GoodRun StInv at *
  rw [h1, h2, h3]
  exact h

theorem goodRun_processItems (st : Stubs) (page : Nat) (its : List (Nat × PaintingInfo))
    (s : RunState) (h : GoodRun s) : GoodRun (processItems st page its s) :=
  foldl_preserve GoodRun _ (fun s it hs => goodRun_processItem st page it s hs) its s h

theorem goodRun_processPage (st : Stubs) (sp si page : Nat) (s : RunState)
    (h : GoodRun s) : GoodRun (processPage st sp si page s) := by
  by_cases hf : s.stopped = true ∨ s.interrupted = true
  · rw [processPage_frozen st sp si page s hf]
    exact h
  · push_neg at hf
    have h0 : s.stopped = false := by simpa using hf.1
    have h1 : s.interrupted = false := by simpa using hf.2
    by_cases h2 : (st.listing page).isEmpty = true
    · rw [processPage_empty st sp si page s h0 h1 h2]
      exact goodRun_fields _ _ rfl rfl rfl h
    · have hmid : GoodRun (processItems st page
          (((st.listing page).drop (if page = sp then si else 0)).enumFrom
            (if page = sp then si else 0))
          { s with events := s.events ++ [Event.fetchList page] }) :=
        goodRun_processItems _ _ _ _ (goodRun_fields _ _ rfl rfl rfl h)
      by_cases h3 : (processItems st page
          (((st.listing page).drop (if page = sp then si else 0)).enumFrom
            (if page = sp then si else 0))
          { s with events := s.events ++ [Event.fetchList page] }).interrupted = true
      · rw [processPage_items_interrupted st sp si page s h0 h1 h2 h3]
        exact hmid
      · rw [Bool.not_eq_true] at h3
        rw [processPage_items_done st sp si page s h0 h1 h2 h3]
        exact goodRun_fields _ _ (by simp [doSave]) (by simp [doSave]) (by simp [doSave]) hmid

theorem goodRun_doSave (s : RunState) (h : GoodRun s) : GoodRun (doSave s) :=
  goodRun_fields _ _ (by simp [doSave]) (by simp [doSave]) (by simp [doSave]) h

/-- The loaded state satisfies the invariant whenever the loaded file has
pairwise-distinct row URLs (true of every file the pipeline writes). -/
theorem stInv_load (file : Option (List Row))
    (h : ∀ rows, file = some rows → (rows.map Row.url).Nodup) :
    ((loadAppraisals file).appraisals.map urlOf).Nodup ∧
    (∀ a ∈ (loadAppraisals file).appraisals, urlOf a ∈ (loadAppraisals file).processed_urls) ∧
    (loadAppraisals file).appraisals.length ≤ (loadAppraisals file).processed_urls.card := by
  cases file with
  | none => simp [loadAppraisals]
  | some rows =>
    have hmap : (rows.map appraisalOfRow).map urlOf = rows.map Row.url := by
      rw [List.map_map]
      rfl
    have hnd := h rows rfl
    refine ⟨by rwa [loadAppraisals, hmap], ?_, ?_⟩
    · intro a ha
      simp only [loadAppraisals] at ha ⊢
      rw [List.mem_toFinset]
      rw [← hmap]
      exact List.mem_map_of_mem urlOf ha
    · simp only [loadAppraisals]
      rw [List.toFinset_card_of_nodup hnd]
      simp

/-- Unfolded form of the final state of `runAppraisal`. -/
theorem runAppraisal_state (st : Stubs) (maxPages : Nat) (file : Option (List Row))
    (budget : Option Nat) :
    (runAppraisal st maxPages file budget).state =
      doSave ((List.range' (max 1 (loadAppraisals file).last_page)
          (maxPages + 1 - max 1 (loadAppraisals file).last_page)).foldl
        (fun s page => processPage st (max 1 (loadAppraisals file).last_page)
          (loadAppraisals file).last_item page s)
        { appraisals := (loadAppraisals file).appraisals
          processed := (loadAppraisals file).processed_urls
          dataLastPage := (loadAppraisals file).last_page
          dataLastItem := (loadAppraisals file).last_item
          file := file, events := []
          snaps := [((loadAppraisals file).appraisals, (loadAppraisals file).processed_urls)]
          budget := budget, interrupted := false, stopped := false }) := rfl

/-- Unfolded form of the return value of `runAppraisal`. -/
theorem runAppraisal_result (st : Stubs) (maxPages : Nat) (file : Option (List Row))
    (budget : Option Nat) :
    (runAppraisal st maxPages file budget).result =
      (if (runAppraisal st maxPages file budget).state.interrupted = true then none
       else some (sortByDesc appraisalSortKey
         (runAppraisal st maxPages file budget).state.appraisals)) := rfl

/-! ## Sorting lemmas: `sortByDesc` is a stable descending sort -/

theorem insertByDesc_perm {α : Type _} (key : α → Rat) (x : α) (l : List α) :
    (insertByDesc key x l).Perm (x :: l) := by
  induction l with
  | nil => exact List.Perm.refl _
  | cons y ys ih =>
    unfold insertByDesc
    split
    · exact List.Perm.refl _
    · exact (List.Perm.cons y ih).trans (List.Perm.swap x y ys)

theorem sortByDesc_perm {α : Type _} (key : α → Rat) (l : List α) :
    (sortByDesc key l).Perm l := by
  induction l with
  | nil => exact List.Perm.refl _
  | cons x xs ih =>
    exact (insertByDesc_perm key x (sortByDesc key xs)).trans (List.Perm.cons x ih)

theorem insertByDesc_pairwise {α : Type _} (key : α → Rat) (x : α) (l : List α)
    (h : l.Pairwise (fun a b => key b ≤ key a)) :
    (insertByDesc key x l).Pairwise (fun a b => key b ≤ key a) := by
  induction l with
  | nil => simp [insertByDesc]
  | cons y ys ih =>
    unfold insertByDesc
    split
    · refine List.Pairwise.cons ?_ h
      intro z hz
      rcases List.mem_cons.mp hz with rfl | hz
      · assumption
      · exact le_trans (List.rel_of_pairwise_cons h hz) (by assumption)
    · rename_i hxy
      push_neg at hxy
      refine List.Pairwise.cons ?_ (ih h.of_cons)
      intro z hz
      have hz2 := (insertByDesc_perm key x ys).mem_iff.mp hz
      rcases List.mem_cons.mp hz2 with rfl | hz2
      · exact le_of_lt hxy
      · exact List.rel_of_pairwise_cons h hz2

theorem sortByDesc_pairwise {α : Type _} (key : α → Rat) (l : List α) :
    (sortByDesc key l).Pairwise (fun a b => key b ≤ key a) := by
  induction l with
  | nil => simp [sortByDesc]
  | cons x xs ih => exact insertByDesc_pairwise key x (sortByDesc key xs) ih

theorem insertByDesc_filter_ne {α : Type _} (key : α → Rat) (x : α) (l : List α) (q : Rat)
    (hq : ¬ key x = q) :
    (insertByDesc key x l).filter (fun a => decide (key a = q)) =
      l.filter (fun a => decide (key a = q)) := by
  induction l with
  | nil => simp [insertByDesc, hq]
  | cons y ys ih =>
    unfold insertByDesc
    split
    · simp [hq]
    · by_cases hy : key y = q <;> simp [hy, ih]

theorem insertByDesc_filter_eq {α : Type _} (key : α → Rat) (x : α) (l : List α) (q : Rat)
    (hq : key x = q) (h : l.Pairwise (fun a b => key b ≤ key a)) :
    (insertByDesc key x l).filter (fun a => decide (key a = q)) =
      x :: l.filter (fun a => decide (key a = q)) := by
  induction l with
  | nil => simp [insertByDesc, hq]
  | cons y ys ih =>
    unfold insertByDesc
    split
    · simp [hq]
    · rename_i hxy
      push_neg at hxy
      have hy : ¬ key y = q := by
        intro hyq
        rw [hq] at hxy
        rw [hyq] at hxy
        exact lt_irrefl q hxy
      simp only [List.filter_cons]
      simp [hy, ih h.of_cons]

theorem sortByDesc_filter {α : Type _} (key : α → Rat) (l : List α) (q : Rat) :
    (sortByDesc key l).filter (fun a => decide (key a = q)) =
      l.filter (fun a => decide (key a = q)) := by
  induction l with
  | nil => rfl
  | cons x xs ih =>
    show (insertByDesc key x (sortByDesc key xs)).filter _ = _
    by_cases hx : key x = q
    · rw [insertByDesc_filter_eq key x _ q hx (sortByDesc_pairwise key xs), ih]
      simp [hx]
    · rw [insertByDesc_filter_ne key x _ q hx, ih]
      simp [hx]

/-! ## Round trip of the `image_urls` cell -/

theorem splitCharAux_no_sep (x : List Char) (h : ';' ∉ x) :
    ∀ acc, splitCharAux ';' x acc = [acc.reverse ++ x] := by
  induction x with
  | nil => intro acc; simp [splitCharAux]
  | cons c t ih =>
    intro acc
    have hc : ¬ c = ';' := by
      intro hc
      exact h (by simp [hc])
    simp only [splitCharAux, if_neg hc]
    rw [ih (fun hmem => h (List.mem_cons_of_mem c hmem)) (c :: acc)]
    simp

theorem splitCharAux_sep_append (x r : List Char) (h : ';' ∉ x) :
    ∀ acc, splitCharAux ';' (x ++ ';' :: r) acc =
      (acc.reverse ++ x) :: splitCharAux ';' r [] := by
  induction x with
  | nil => intro acc; simp [splitCharAux]
  | cons c t ih =>
    intro acc
    have hc : ¬ c = ';' := by
      intro hc
      exact h (by simp [hc])
    simp only [List.cons_append, splitCharAux, if_neg hc, List.append_eq]
    rw [ih (fun hmem => h (List.mem_cons_of_mem c hmem)) (c :: acc)]
    simp

theorem pySplitSemi_joinSemi (l : List String) (hne : l ≠ [])
    (h : ∀ u ∈ l, ';' ∉ u.data) : pySplitSemi (joinSemi l) = l := by
  induction l with
  | nil => exact absurd rfl hne
  | cons x t ih =>
    cases t with
    | nil =>
      show (splitCharAux ';' (joinSemiChars [x.data]) []).map _ = [x]
      rw [show joinSemiChars [x.data] = x.data from rfl]
      rw [splitCharAux_no_sep x.data (h x (by simp)) []]
      simp
    | cons y t2 =>
      show (splitCharAux ';' (joinSemiChars (x.data :: y.data :: t2.map String.data)) []).map _ =
        x :: y :: t2
      rw [show joinSemiChars (x.data :: y.data :: t2.map String.data) =
        x.data ++ ';' :: joinSemiChars (y.data :: t2.map String.data) from rfl]
      rw [splitCharAux_sep_append x.data _ (h x (by simp)) []]
      have ih2 := ih (by simp) (fun u hu => h u (List.mem_cons_of_mem x hu))
      simp only [List.map_cons, List.reverse_nil, List.nil_append]
      refine congrArg₂ _ rfl ih2

theorem parseImageUrlsCell_joinSemi (l : List String) (hne : l ≠ [])
    (h : ∀ u ∈ l, CleanUrl u) : parseImageUrlsCell (joinSemi l) = l := by
  have hjoin_ne : joinSemi l ≠ "" := by
    cases l with
    | nil => exact absurd rfl hne
    | cons x t =>
      cases t with
      | nil =>
        have hx := (h x (by simp)).1
        intro hcon
        apply hx
        have h2 : (joinSemi [x]).data = x.data := rfl
        rw [hcon] at h2
        exact String.ext h2.symm
      | cons y t2 =>
        intro hcon
        have : (joinSemi (x :: y :: t2)).data = [] := by rw [hcon]
        rw [show (joinSemi (x :: y :: t2)).data =
          x.data ++ ';' :: joinSemiChars (y.data :: t2.map String.data) from rfl] at this
        simp at this
  unfold parseImageUrlsCell
  rw [if_neg hjoin_ne]
  rw [pySplitSemi_joinSemi l hne (fun u hu => (h u hu).2.2)]
  have hmap : l.map pyStrip = l := by
    refine List.map_congr_left ?_ |>.trans (List.map_id l)
    intro u hu
    exact (h u hu).2.1
  rw [hmap]
  refine List.filter_eq_self.mpr ?_
  intro u hu
  exact decide_eq_true ((h u hu).1)

/-- One save/load round trip on a single appraisal realizes exactly the
persistence normalization. -/
theorem appraisalOfRow_rowOfAppraisal (a : Appraisal) (h : CleanApp a) :
    appraisalOfRow (rowOfAppraisal a) = normApp a := by
  unfold appraisalOfRow rowOfAppraisal normApp normPainting
  congr 1
  cases hurls : a.painting_info.image_urls.isEmpty with
  | true =>
    rw [List.isEmpty_iff] at hurls
    simp [parseImageUrlsCell, hurls]
  | false =>
    have hne : a.painting_info.image_urls ≠ [] := by
      intro hcon
      rw [hcon] at hurls
      simp at hurls
    simp only [hurls]
    rw [if_neg (by simp)]
    rw [parseImageUrlsCell_joinSemi _ hne h]

theorem perm_toFinset {α : Type _} [DecidableEq α] (l1 l2 : List α) (h : l1.Perm l2) :
    l1.toFinset = l2.toFinset := by
  ext x
  simp [List.mem_toFinset, h.mem_iff]

/-! ## Event-trace growth -/

theorem processItem_events_extend (st : Stubs) (page : Nat) (it : Nat × PaintingInfo)
    (s : RunState) : ∃ t, (processItem st page it s).events = s.events ++ t :=
  (processItem_shape st page it s).2.2.1

theorem processItems_events_extend (st : Stubs) (page : Nat) (its : List (Nat × PaintingInfo))
    (s : RunState) : ∃ t, (processItems st page its s).events = s.events ++ t := by
  refine foldl_preserve (fun r => ∃ t, r.events = s.events ++ t)
    (fun r it => processItem st page it r) ?_ its s ⟨[], by simp⟩
  intro r it ⟨t, ht⟩
  obtain ⟨t2, ht2⟩ := processItem_events_extend st page it r
  exact ⟨t ++ t2, by rw [ht2, ht, List.append_assoc]⟩

theorem processPage_events_extend (st : Stubs) (sp si page : Nat) (s : RunState) :
    ∃ t, (processPage st sp si page s).events = s.events ++ t := by
  by_cases hf : s.stopped = true ∨ s.interrupted = true
  · rw [processPage_frozen st sp si page s hf]
    exact ⟨[], by simp⟩
  · push_neg at hf
    have h0 : s.stopped = false := by simpa using hf.1
    have h1 : s.interrupted = false := by simpa using hf.2
    by_cases h2 : (st.listing page).isEmpty = true
    · rw [processPage_empty st sp si page s h0 h1 h2]
      exact ⟨[Event.fetchList page], rfl⟩
    · obtain ⟨t, ht⟩ := processItems_events_extend st page
        (((st.listing page).drop (if page = sp then si else 0)).enumFrom
          (if page = sp then si else 0))
        { s with events := s.events ++ [Event.fetchList page] }
      by_cases h3 : (processItems st page
          (((st.listing page).drop (if page = sp then si else 0)).enumFrom
            (if page = sp then si else 0))
          { s with events := s.events ++ [Event.fetchList page] }).interrupted = true
      · rw [processPage_items_interrupted st sp si page s h0 h1 h2 h3, ht]
        exact ⟨[Event.fetchList page] ++ t, by simp⟩
      · rw [Bool.not_eq_true] at h3
        rw [processPage_items_done st sp si page s h0 h1 h2 h3]
        refine ⟨[Event.fetchList page] ++ t ++ [Event.saveEvent] ++ [Event.sleepPage], ?_⟩
        simp only [doSave, ht]
        simp [List.append_assoc]

/-- A non-frozen page iteration starts its event contribution with the
listing fetch. -/
theorem processPage_events_fetch (st : Stubs) (sp si page : Nat) (s : RunState)
    (h0 : s.stopped = false) (h1 : s.interrupted = false) :
    ∃ t, (processPage st sp si page s).events = s.events ++ [Event.fetchList page] ++ t := by
  by_cases h2 : (st.listing page).isEmpty = true
  · rw [processPage_empty st sp si page s h0 h1 h2]
    exact ⟨[], by simp⟩
  · obtain ⟨t, ht⟩ := processItems_events_extend st page
      (((st.listing page).drop (if page = sp then si else 0)).enumFrom
        (if page = sp then si else 0))
      { s with events := s.events ++ [Event.fetchList page] }
    by_cases h3 : (processItems st page
        (((st.listing page).drop (if page = sp then si else 0)).enumFrom
          (if page = sp then si else 0))
        { s with events := s.events ++ [Event.fetchList page] }).interrupted = true
    · rw [processPage_items_interrupted st sp si page s h0 h1 h2 h3, ht]
      exact ⟨t, by simp⟩
    · rw [Bool.not_eq_true] at h3
      rw [processPage_items_done st sp si page s h0 h1 h2 h3]
      refine ⟨t ++ [Event.saveEvent] ++ [Event.sleepPage], ?_⟩
      simp only [doSave, ht]
      simp [List.append_assoc]

/-- The run invariant holds at the end of every run whose input file
(if present) has pairwise-distinct row URLs. -/
theorem goodRun_runAppraisal (st : Stubs) (maxPages : Nat) (file : Option (List Row))
    (budget : Option Nat)
    (h : ∀ rows, file = some rows → (rows.map Row.url).Nodup) :
    GoodRun (runAppraisal st maxPages file budget).state := by
  obtain ⟨hnd, hmem, hcard⟩ := stInv_load file h
  rw [runAppraisal_state]
  refine goodRun_doSave _ (foldl_preserve GoodRun _ (fun s page hs =>
    goodRun_processPage st _ _ page s hs) _ _ ?_)
  unfold GoodRun
  refine ⟨⟨hnd, hmem⟩, ?_, ?_, ?_⟩
  · intro x hx
    simp at hx
    rw [hx]
    exact ⟨hcard, hmem⟩
  · exact List.chain'_singleton _
  · intro x hx
    simp at hx
    rw [← hx]

/-! ## Claim C5 -/

/-- C5: for every non-empty appraisal list, `save_appraisals` writes the
flattened rows sorted by descending `estimated_value_best` before
serialization — the written row list is a permutation of the input rows,
its keys are descending, and ties keep their stable relative order — so
the saved file is a ranked leaderboard. -/
theorem c5_save_sorted (data : PipelineData) (file : Option (List Row))
    (h : data.appraisals ≠ []) :
    saveAppraisals data file =
      some (sortByDesc Row.estimated_value_best (data.appraisals.map rowOfAppraisal)) ∧
    (sortByDesc Row.estimated_value_best (data.appraisals.map rowOfAppraisal)).Pairwise
      (fun a b => b.estimated_value_best ≤ a.estimated_value_best) ∧
    (sortByDesc Row.estimated_value_best (data.appraisals.map rowOfAppraisal)).Perm
      (data.appraisals.map rowOfAppraisal) ∧
    ∀ q : Rat,
      (sortByDesc Row.estimated_value_best (data.appraisals.map rowOfAppraisal)).filter
        (fun r => decide (r.estimated_value_best = q)) =
      (data.appraisals.map rowOfAppraisal).filter
        (fun r => decide (r.estimated_value_best = q)) := by
  refine ⟨?_, ?_, ?_, ?_⟩
  · unfold saveAppraisals
    rw [if_neg (by simpa using h)]
  · exact sortByDesc_pairwise Row.estimated_value_best _
  · exact sortByDesc_perm Row.estimated_value_best _
  · intro q
    exact sortByDesc_filter Row.estimated_value_best _ q

/-- C5 witness: the non-emptiness hypothesis holds at a concrete
two-appraisal state and the theorem applies there (stability instantiated
at key 100). -/
theorem c5_save_sorted_witness :
    ((⟨[app50, appB], ∅, 0, 0⟩ : PipelineData).appraisals ≠ [] ∧
      saveAppraisals ⟨[app50, appB], ∅, 0, 0⟩ none =
        some (sortByDesc Row.estimated_value_best ([app50, appB].map rowOfAppraisal))) ∧
    (sortByDesc Row.estimated_value_best ([app50, appB].map rowOfAppraisal)).Pairwise
      (fun a b => b.estimated_value_best ≤ a.estimated_value_best) ∧
    (sortByDesc Row.estimated_value_best ([app50, appB].map rowOfAppraisal)).Perm
      ([app50, appB].map rowOfAppraisal) ∧
    (sortByDesc Row.estimated_value_best ([app50, appB].map rowOfAppraisal)).filter
      (fun r => decide (r.estimated_value_best = 100)) =
      ([app50, appB].map rowOfAppraisal).filter
        (fun r => decide (r.estimated_value_best = 100)) := by
  have h := c5_save_sorted ⟨[app50, appB], ∅, 0, 0⟩ none (by simp)
  exact ⟨⟨by simp, h.1⟩, h.2.1, h.2.2.1, h.2.2.2 100⟩

/-! ## Claim C2 -/

/-- C2 counterexample: the persisted artifact stores only Valuation rows,
so a state whose processed set holds a URL with no Valuation (item A) does
not round trip: after save and load the processed set has lost that URL. -/
theorem c2_counterexample :
    (loadAppraisals (saveAppraisals dataC2 none)).processed_urls ≠ dataC2.processed_urls := by
  decide

/-- C2 (amended): for a state with a non-empty appraisal list whose image
URL lists are clean, save-then-load yields the processed set rebuilt from
the Valuations' URLs (not the original processed set) and the Valuation
sequence up to re-sorting and persistence normalization (`item_id` and raw
payload dropped, absent primary image as `""`). The original processed set
is recovered exactly when every processed URL has a Valuation. -/
theorem c2_roundtrip_amended (data : PipelineData) (file : Option (List Row))
    (h1 : data.appraisals ≠ []) (h2 : ∀ a ∈ data.appraisals, CleanApp a) :
    (loadAppraisals (saveAppraisals data file)).processed_urls =
      (data.appraisals.map urlOf).toFinset ∧
    ((loadAppraisals (saveAppraisals data file)).appraisals).Perm
      (data.appraisals.map normApp) := by
  have hsave : saveAppraisals data file =
      some (sortByDesc Row.estimated_value_best (data.appraisals.map rowOfAppraisal)) := by
    unfold saveAppraisals
    rw [if_neg (by simpa using h1)]
  rw [hsave]
  have hperm := sortByDesc_perm Row.estimated_value_best (data.appraisals.map rowOfAppraisal)
  constructor
  · show ((sortByDesc Row.estimated_value_best
      (data.appraisals.map rowOfAppraisal)).map Row.url).toFinset = _
    rw [perm_toFinset _ _ (hperm.map Row.url)]
    rw [List.map_map]
    refine congrArg _ (List.map_congr_left ?_)
    intro a _
    rfl
  · show ((sortByDesc Row.estimated_value_best
      (data.appraisals.map rowOfAppraisal)).map appraisalOfRow).Perm _
    refine (hperm.map appraisalOfRow).trans ?_
    rw [List.map_map]
    refine List.Perm.of_eq (List.map_congr_left ?_)
    intro a ha
    exact appraisalOfRow_rowOfAppraisal a (h2 a ha)

/-- C2 witness: the hypotheses hold at a concrete one-appraisal state and
the amended round trip applies there. -/
theorem c2_roundtrip_witness :
    ((⟨[appB], {pInfoB.url}, 3, 7⟩ : PipelineData).appraisals ≠ [] ∧
      (∀ a ∈ (⟨[appB], {pInfoB.url}, 3, 7⟩ : PipelineData).appraisals, CleanApp a)) ∧
    (loadAppraisals (saveAppraisals ⟨[appB], {pInfoB.url}, 3, 7⟩ none)).processed_urls =
      ([appB].map urlOf).toFinset ∧
    ((loadAppraisals (saveAppraisals ⟨[appB], {pInfoB.url}, 3, 7⟩ none)).appraisals).Perm
      ([appB].map normApp) := by
  have h := c2_roundtrip_amended ⟨[appB], {pInfoB.url}, 3, 7⟩ none (by simp) (by decide)
  exact ⟨⟨by simp, by decide⟩, h.1, h.2⟩

/-! ## Claim C3 -/

/-- C3: at every step of every run (each snapshot taken after an item
iteration, and the final state), the number of processed URLs is at least
the number of collected Valuations and every Valuation's source URL is in
the processed set; the processed set only grows along the run. Runs are
resumed from files written by `save_appraisals`, whose row URLs are
pairwise distinct — the hypothesis assumes exactly that of the input
file. -/
theorem c3_dedup_invariant (st : Stubs) (maxPages : Nat) (file : Option (List Row))
    (budget : Option Nat)
    (h : ∀ rows, file = some rows → (rows.map Row.url).Nodup) :
    SnapInv ((runAppraisal st maxPages file budget).state.appraisals,
      (runAppraisal st maxPages file budget).state.processed) ∧
    (∀ x ∈ (runAppraisal st maxPages file budget).state.snaps, SnapInv x) ∧
    (runAppraisal st maxPages file budget).state.snaps.Chain' (fun x y => x.2 ⊆ y.2) ∧
    (∀ x ∈ (runAppraisal st maxPages file budget).state.snaps.getLast?,
      x.2 ⊆ (runAppraisal st maxPages file budget).state.processed) := by
  obtain ⟨hst, hsnap, hchain, hlast⟩ := goodRun_runAppraisal st maxPages file budget h
  exact ⟨hst.snapInv, hsnap, hchain, hlast⟩

/-- C3 witness: the nodup-file hypothesis holds for a fresh run (no file)
with the demo stubs, and the invariant theorem applies there. -/
theorem c3_dedup_invariant_witness :
    (∀ rows, (none : Option (List Row)) = some rows → (rows.map Row.url).Nodup) ∧
    SnapInv ((runAppraisal demoStubs 2 none none).state.appraisals,
      (runAppraisal demoStubs 2 none none).state.processed) ∧
    (∀ x ∈ (runAppraisal demoStubs 2 none none).state.snaps, SnapInv x) ∧
    (runAppraisal demoStubs 2 none none).state.snaps.Chain' (fun x y => x.2 ⊆ y.2) ∧
    (∀ x ∈ (runAppraisal demoStubs 2 none none).state.snaps.getLast?,
      x.2 ⊆ (runAppraisal demoStubs 2 none none).state.processed) := by
  have h := c3_dedup_invariant demoStubs 2 none none (by simp)
  exact ⟨by simp, h.1, h.2.1, h.2.2.1, h.2.2.2⟩

/-! ## Claim C6 -/

/-- C6 counterexample: a URL matching neither the accepted-extension list
nor the denylist is rejected by `_is_valid_product_image`, not
"conservatively accepted" — the function requires an accepted extension. -/
theorem c6_counterexample :
    hasAcceptedExtension "https://example.com/photo" = false ∧
    hasExcludedPattern "https://example.com/photo" = false ∧
    isValidProductImage "https://example.com/photo" = false := by
  decide

/-- C6 (amended): `_is_valid_product_image` accepts a URL exactly when it
contains an accepted image extension and matches no denylist pattern (the
conservative acceptance applies only to URLs that already carry an
accepted extension but match neither the denylist nor the product-pattern
allowlist); of the claim's triple, only `.../items/12345.jpg` survives. -/
theorem c6_image_filter_amended :
    (∀ url : String, isValidProductImage url = true ↔
      hasAcceptedExtension url = true ∧ hasExcludedPattern url = false) ∧
    isValidProductImage "https://site.com/logo.svg" = false ∧
    isValidProductImage "https://site.com/nav/icon.png" = false ∧
    isValidProductImage "https://site.com/items/12345.jpg" = true := by
  refine ⟨?_, by decide, by decide, by decide⟩
  intro url
  unfold isValidProductImage hasAcceptedExtension hasExcludedPattern
  by_cases h0 : url = ""
  · subst h0
    decide
  · rw [if_neg h0]
    cases h1 : excludePatterns.any (fun pat => strContainsSub (lowerStr url) pat) with
    | true => simp [h1]
    | false =>
      cases h2 : imageExtensions.any (fun ext => strContainsSub (lowerStr url) ext) with
      | false => simp [h1, h2]
      | true => simp [h1, h2, ite_self]

/-- C6 witness: the amended equivalence instantiated at the retained URL. -/
theorem c6_image_filter_witness :
    isValidProductImage "https://site.com/items/12345.jpg" = true ↔
      hasAcceptedExtension "https://site.com/items/12345.jpg" = true ∧
      hasExcludedPattern "https://site.com/items/12345.jpg" = false :=
  c6_image_filter_amended.1 "https://site.com/items/12345.jpg"

/-! ## Claim C7 -/

/-- C7: an item detail with an empty image list and no primary image makes
`appraise_painting` return an absent result without invoking the oracle. -/
theorem c7_no_image_short_circuit (maxImages : Option Nat)
    (oracle : PaintingInfo → List String → Option AppraisalResponse) (p : PaintingInfo)
    (h1 : p.image_urls = []) (h2 : p.image_url = none) :
    appraisePainting maxImages oracle p = (none, false) := by
  unfold appraisePainting availableImages
  simp [h1, h2]

/-- C7 witness: item A has no images; even against an oracle that would
answer, the appraisal is absent and the oracle is not called. -/
theorem c7_no_image_witness :
    (pInfoA.image_urls = [] ∧ pInfoA.image_url = none) ∧
    appraisePainting none (fun _ _ => some resp100) pInfoA = (none, false) :=
  ⟨⟨rfl, rfl⟩, c7_no_image_short_circuit none (fun _ _ => some resp100) pInfoA rfl rfl⟩

/-! ## Claim C8 -/

/-- C8: `_get_numeric_value` is total (the embedding is a function, the
`except` clause maps every parse failure to 0): numeric values pass
through unchanged, currency-formatted strings parse after stripping `$`
and `,` (so `"$1,234.50"` coerces to the same key as the number 1234.50),
and unparseable strings (such as `"not-a-number"`) and non-numeric,
non-string values coerce to 0. -/
theorem c8_numeric_coercion :
    (∀ q : Rat, getNumericValue (PyVal.num q) = q) ∧
    (∀ s : String, pyFloat? (stripCurrency s) = none → getNumericValue (PyVal.str s) = 0) ∧
    (∀ (s : String) (q : Rat), pyFloat? (stripCurrency s) = some q →
      getNumericValue (PyVal.str s) = q) ∧
    getNumericValue PyVal.other = 0 ∧
    getNumericValue (PyVal.str "$1,234.50") = getNumericValue (PyVal.num (1234.5 : Rat)) ∧
    getNumericValue (PyVal.str "not-a-number") = 0 := by
  refine ⟨fun q => rfl, ?_, ?_, rfl, ?_, ?_⟩
  · intro s h
    simp only [getNumericValue, h]
  · intro s q h
    simp only [getNumericValue, h]
  · have hp : parseFloatLit? (stripCurrency "$1,234.50") =
        some ⟨false, 1234, 50, 2, false, 0⟩ := by decide
    show getNumericValue (PyVal.str "$1,234.50") = (1234.5 : Rat)
    simp only [getNumericValue, pyFloat?, hp, Option.map_some']
    norm_num [floatLitVal]
  · have hp : parseFloatLit? (stripCurrency "not-a-number") = none := by decide
    simp only [getNumericValue, pyFloat?, hp, Option.map_none']

/-- C8 witness: the failure clause instantiated at a concrete unparseable
string. -/
theorem c8_numeric_coercion_witness :
    pyFloat? (stripCurrency "abc") = none ∧ getNumericValue (PyVal.str "abc") = 0 :=
  ⟨by decide, c8_numeric_coercion.2.1 "abc" (by decide)⟩

/-! ## Claim C10 -/

/-- Every run with at least one page to process issues its first listing
fetch for page 1, whatever the input file contained. -/
theorem runAppraisal_events_head (st : Stubs) (maxPages : Nat) (file : Option (List Row))
    (budget : Option Nat) (h : 1 ≤ maxPages) :
    (runAppraisal st maxPages file budget).state.events.head? = some (Event.fetchList 1) := by
  obtain ⟨m, rfl⟩ : ∃ m, maxPages = m + 1 := ⟨maxPages - 1, by omega⟩
  have hlp : (loadAppraisals file).last_page = 0 := by cases file <;> rfl
  rw [runAppraisal_state, hlp]
  simp only [Nat.max_zero]
  rw [show m + 1 + 1 - 1 = m + 1 from rfl]
  rw [List.range'_succ, List.foldl_cons]
  set s0 : RunState :=
    { appraisals := (loadAppraisals file).appraisals
      processed := (loadAppraisals file).processed_urls
      dataLastPage := 0
      dataLastItem := (loadAppraisals file).last_item
      file := file, events := []
      snaps := [((loadAppraisals file).appraisals, (loadAppraisals file).processed_urls)]
      budget := budget, interrupted := false, stopped := false } with hs0
  obtain ⟨t, ht⟩ := processPage_events_fetch st 1 (loadAppraisals file).last_item 1 s0 rfl rfl
  have hbase : ∃ t2, (processPage st 1 (loadAppraisals file).last_item 1 s0).events =
      Event.fetchList 1 :: t2 := by
    refine ⟨t, ?_⟩
    rw [ht]
    simp [hs0]
  obtain ⟨t3, ht3⟩ := foldl_preserve
    (fun r => ∃ t2, r.events = Event.fetchList 1 :: t2)
    (fun s page => processPage st 1 (loadAppraisals file).last_item page s)
    (by
      intro r page ⟨t2, ht2⟩
      obtain ⟨t4, ht4⟩ := processPage_events_extend st 1 (loadAppraisals file).last_item page r
      exact ⟨t2 ++ t4, by rw [ht4, ht2]; simp⟩)
    (List.range' 2 m) _ hbase
  simp only [doSave, saveAppraisals]
  rw [ht3]
  simp

/-- C10: `load_appraisals` returns cursor fields `last_page = 0` and
`last_item = 0` on every path (present, absent or malformed file), so a
resumed run computes `start_page = max(1, 0) = 1` and `start_item = 0` and
restarts pagination at page 1, item 0 — its first listing fetch is for
page 1 regardless of where the previous run stopped. -/
theorem c10_cursor_reset :
    (∀ file, (loadAppraisals file).last_page = 0 ∧ (loadAppraisals file).last_item = 0) ∧
    (∀ (st : Stubs) (maxPages : Nat) (file : Option (List Row)) (budget : Option Nat),
      1 ≤ maxPages →
      max 1 (loadAppraisals file).last_page = 1 ∧
      (loadAppraisals file).last_item = 0 ∧
      (runAppraisal st maxPages file budget).state.events.head? =
        some (Event.fetchList 1)) := by
  have hcur : ∀ file, (loadAppraisals file).last_page = 0 ∧
      (loadAppraisals file).last_item = 0 := by
    intro file
    cases file <;> exact ⟨rfl, rfl⟩
  refine ⟨hcur, ?_⟩
  intro st maxPages file budget h
  refine ⟨?_, (hcur file).2, runAppraisal_events_head st maxPages file budget h⟩
  rw [(hcur file).1]
  simp

/-- C10 witness: the page-1 restart at a concrete resumed run. -/
theorem c10_cursor_reset_witness :
    (1 : Nat) ≤ 2 ∧
    (max 1 (loadAppraisals (saveAppraisals dataC2 none)).last_page = 1 ∧
      (loadAppraisals (saveAppraisals dataC2 none)).last_item = 0 ∧
      (runAppraisal demoStubs 2 (saveAppraisals dataC2 none) none).state.events.head? =
        some (Event.fetchList 1)) :=
  ⟨by norm_num,
    c10_cursor_reset.2 demoStubs 2 (saveAppraisals dataC2 none) none (by norm_num)⟩

/-! ## Claim C4 -/

/-- C4 counterexample: on a page of five items whose detail fetches all
fail, five items are processed (each a per-item error, completing a batch
of five) with no intervening `save_appraisals` call — the first six events
are the listing fetch and the five detail fetches, with no save event. -/
theorem c4_counterexample :
    failStubs.detail "u1" = none ∧
    (runAppraisal failStubs 2 none none).state.events.take 6 =
      [Event.fetchList 1, Event.fetchDetail "u1", Event.fetchDetail "u2",
       Event.fetchDetail "u3", Event.fetchDetail "u4", Event.fetchDetail "u5"] ∧
    Event.saveEvent ∉ (runAppraisal failStubs 2 none none).state.events.take 6 := by
  decide

/-- C4 (amended): `save_appraisals` is invoked after an item whose loop
body raises into the per-item `except` handler; after a successfully
appraised item at page index `i` with `(i+1) % 5 = 0` (the batch counter
is the page position of successful items, not a count of processed
items); after every completed non-empty page; and unconditionally at run
termination, including termination by interruption (the `finally` block).
Items that fail detail fetch or appraisal without raising trigger no
save. -/
theorem c4_persistence_amended :
    (∀ (st : Stubs) (page i : Nat) (p : PaintingInfo) (s : RunState),
      s.stopped = false → s.interrupted = false → ¬ s.budget = some 0 →
      p.url ∉ s.processed → st.raises p.url = true →
      (processItem st page (i, p) s).events = s.events ++ [Event.saveEvent]) ∧
    (∀ (st : Stubs) (page i : Nat) (p : PaintingInfo) (s : RunState) (d0 : PaintingInfo)
      (a : Appraisal) (c : Bool),
      s.stopped = false → s.interrupted = false → ¬ s.budget = some 0 →
      p.url ∉ s.processed → st.raises p.url = false →
      st.detail p.url = some d0 →
      appraisePainting st.maxImages st.oracle { d0 with url := p.url } = (some a, c) →
      (i + 1) % 5 = 0 →
      ∃ mid, (processItem st page (i, p) s).events =
        s.events ++ [Event.fetchDetail p.url] ++ mid ++
          [Event.saveEvent, Event.sleepItem]) ∧
    (∀ (st : Stubs) (page i : Nat) (p : PaintingInfo) (s : RunState),
      s.stopped = false → s.interrupted = false → ¬ s.budget = some 0 →
      p.url ∉ s.processed → st.raises p.url = false →
      st.detail p.url = none →
      Event.saveEvent ∉ (processItem st page (i, p) s).events.drop s.events.length) ∧
    (∀ (st : Stubs) (page i : Nat) (p : PaintingInfo) (s : RunState) (d0 : PaintingInfo),
      s.stopped = false → s.interrupted = false → ¬ s.budget = some 0 →
      p.url ∉ s.processed → st.raises p.url = false →
      st.detail p.url = some d0 →
      (appraisePainting st.maxImages st.oracle { d0 with url := p.url }).1 = none →
      Event.saveEvent ∉ (processItem st page (i, p) s).events.drop s.events.length) ∧
    (∀ (st : Stubs) (sp si page : Nat) (s : RunState),
      s.stopped = false → s.interrupted = false →
      ¬ (st.listing page).isEmpty = true →
      (processItems st page
        (((st.listing page).drop (if page = sp then si else 0)).enumFrom
          (if page = sp then si else 0))
        { s with events := s.events ++ [Event.fetchList page] }).interrupted = false →
      ∃ mid, (processPage st sp si page s).events =
        s.events ++ [Event.fetchList page] ++ mid ++
          [Event.saveEvent, Event.sleepPage]) ∧
    (∀ (st : Stubs) (maxPages : Nat) (file : Option (List Row)) (budget : Option Nat),
      (runAppraisal st maxPages file budget).state.events.getLast? =
        some Event.saveEvent) := by
  refine ⟨?_, ?_, ?_, ?_, ?_, ?_⟩
  · intro st page i p s h0 h1 h2 h3 h4
    rw [processItem_raise st page i p s h0 h1 h2 h3 h4]
    simp [pushSnap, doSave, decBudget]
  · intro st page i p s d0 a c h0 h1 h2 h3 h4 h5 h6 h7
    obtain ⟨-, -, e3, -⟩ := processItem_success st page i p s d0 a c h0 h1 h2 h3 h4 h5 h6
    refine ⟨if c then [Event.oracleCall p.url] else [], ?_⟩
    rw [e3, if_pos h7]
    simp [List.append_assoc]
  · intro st page i p s h0 h1 h2 h3 h4 h5
    rw [processItem_noDetail st page i p s h0 h1 h2 h3 h4 h5]
    simp [pushSnap, decBudget, List.drop_left]
  · intro st page i p s d0 h0 h1 h2 h3 h4 h5 h6
    rw [processItem_noAppraisal st page i p s d0 h0 h1 h2 h3 h4 h5 h6]
    simp only [pushSnap, decBudget]
    rw [List.append_assoc, List.drop_left]
    split <;> simp
  · intro st sp si page s h0 h1 h2 h3
    rw [processPage_items_done st sp si page s h0 h1 h2 h3]
    obtain ⟨t, ht⟩ := processItems_events_extend st page
      (((st.listing page).drop (if page = sp then si else 0)).enumFrom
        (if page = sp then si else 0))
      { s with events := s.events ++ [Event.fetchList page] }
    refine ⟨t, ?_⟩
    simp only [doSave, ht]
    simp [List.append_assoc]
  · intro st maxPages file budget
    rw [runAppraisal_state]
    simp only [doSave]
    rw [List.getLast?_concat]

/-- C4 witness: the no-save-on-detail-failure clause instantiated at a
concrete item against the failing stubs from the fresh state. -/
theorem c4_persistence_witness :
    (freshState.stopped = false ∧ freshState.interrupted = false ∧
      ¬ freshState.budget = some 0 ∧ "u1" ∉ freshState.processed ∧
      failStubs.raises "u1" = false ∧ failStubs.detail "u1" = none) ∧
    Event.saveEvent ∉
      (processItem failStubs 1 (0, { url := "u1", title := "1" }) freshState).events.drop
        freshState.events.length := by
  refine ⟨⟨rfl, rfl, by decide, by decide, rfl, rfl⟩, ?_⟩
  exact c4_persistence_amended.2.2.1 failStubs 1 0 { url := "u1", title := "1" } freshState
    rfl rfl (by decide) (by decide) rfl rfl

/-! ## Claim C9 -/

/-- C9 counterexample: the inter-item delay is skipped on the error path —
a run whose items all fail detail fetch executes no inter-item sleep at
all, even though consecutive items are processed (events 2 and 3 are two
consecutive detail fetches with nothing between them). -/
theorem c9_counterexample :
    failStubs.detail "u1" = none ∧
    (runAppraisal failStubs 2 none none).state.events.take 3 =
      [Event.fetchList 1, Event.fetchDetail "u1", Event.fetchDetail "u2"] ∧
    Event.sleepItem ∉ (runAppraisal failStubs 2 none none).state.events := by
  decide

/-- C9 (amended): the inter-item delay runs only after a successfully
appraised item (as the last step of its iteration); items that fail detail
fetch, fail appraisal, or raise into the per-item handler perform no
sleep. The fixed inter-page pause runs after every completed non-empty
page, and not when an empty page breaks pagination. -/
theorem c9_rate_limit_amended :
    (∀ (st : Stubs) (page i : Nat) (p : PaintingInfo) (s : RunState) (d0 : PaintingInfo)
      (a : Appraisal) (c : Bool),
      s.stopped = false → s.interrupted = false → ¬ s.budget = some 0 →
      p.url ∉ s.processed → st.raises p.url = false →
      st.detail p.url = some d0 →
      appraisePainting st.maxImages st.oracle { d0 with url := p.url } = (some a, c) →
      (processItem st page (i, p) s).events.getLast? = some Event.sleepItem) ∧
    (∀ (st : Stubs) (page i : Nat) (p : PaintingInfo) (s : RunState),
      s.stopped = false → s.interrupted = false → ¬ s.budget = some 0 →
      p.url ∉ s.processed → st.raises p.url = false →
      st.detail p.url = none →
      Event.sleepItem ∉ (processItem st page (i, p) s).events.drop s.events.length) ∧
    (∀ (st : Stubs) (page i : Nat) (p : PaintingInfo) (s : RunState) (d0 : PaintingInfo),
      s.stopped = false → s.interrupted = false → ¬ s.budget = some 0 →
      p.url ∉ s.processed → st.raises p.url = false →
      st.detail p.url = some d0 →
      (appraisePainting st.maxImages st.oracle { d0 with url := p.url }).1 = none →
      Event.sleepItem ∉ (processItem st page (i, p) s).events.drop s.events.length) ∧
    (∀ (st : Stubs) (page i : Nat) (p : PaintingInfo) (s : RunState),
      s.stopped = false → s.interrupted = false → ¬ s.budget = some 0 →
      p.url ∉ s.processed → st.raises p.url = true →
      Event.sleepItem ∉ (processItem st page (i, p) s).events.drop s.events.length ∧
      Event.sleepPage ∉ (processItem st page (i, p) s).events.drop s.events.length) ∧
    (∀ (st : Stubs) (sp si page : Nat) (s : RunState),
      s.stopped = false → s.interrupted = false →
      ¬ (st.listing page).isEmpty = true →
      (processItems st page
        (((st.listing page).drop (if page = sp then si else 0)).enumFrom
          (if page = sp then si else 0))
        { s with events := s.events ++ [Event.fetchList page] }).interrupted = false →
      (processPage st sp si page s).events.getLast? = some Event.sleepPage) ∧
    (∀ (st : Stubs) (sp si page : Nat) (s : RunState),
      s.stopped = false → s.interrupted = false →
      (st.listing page).isEmpty = true →
      Event.sleepPage ∉ (processPage st sp si page s).events.drop s.events.length) := by
  refine ⟨?_, ?_, ?_, ?_, ?_, ?_⟩
  · intro st page i p s d0 a c h0 h1 h2 h3 h4 h5 h6
    obtain ⟨-, -, e3, -⟩ := processItem_success st page i p s d0 a c h0 h1 h2 h3 h4 h5 h6
    rw [e3]
    rw [List.getLast?_concat]
  · intro st page i p s h0 h1 h2 h3 h4 h5
    rw [processItem_noDetail st page i p s h0 h1 h2 h3 h4 h5]
    simp [pushSnap, decBudget, List.drop_left]
  · intro st page i p s d0 h0 h1 h2 h3 h4 h5 h6
    rw [processItem_noAppraisal st page i p s d0 h0 h1 h2 h3 h4 h5 h6]
    simp only [pushSnap, decBudget]
    rw [List.append_assoc, List.drop_left]
    split <;> simp
  · intro st page i p s h0 h1 h2 h3 h4
    rw [processItem_raise st page i p s h0 h1 h2 h3 h4]
    constructor <;> simp [pushSnap, doSave, decBudget, List.drop_left]
  · intro st sp si page s h0 h1 h2 h3
    rw [processPage_items_done st sp si page s h0 h1 h2 h3]
    rw [List.getLast?_concat]
  · intro st sp si page s h0 h1 h2
    rw [processPage_empty st sp si page s h0 h1 h2]
    simp [List.drop_left]

/-- C9 witness: the no-sleep-on-detail-failure clause instantiated at a
concrete item against the failing stubs from the fresh state. -/
theorem c9_rate_limit_witness :
    (freshState.stopped = false ∧ freshState.interrupted = false ∧
      ¬ freshState.budget = some 0 ∧ "u1" ∉ freshState.processed ∧
      failStubs.raises "u1" = false ∧ failStubs.detail "u1" = none) ∧
    Event.sleepItem ∉
      (processItem failStubs 1 (0, { url := "u1", title := "1" }) freshState).events.drop
        freshState.events.length := by
  refine ⟨⟨rfl, rfl, by decide, by decide, rfl, rfl⟩, ?_⟩
  exact c9_rate_limit_amended.2.1 failStubs 1 0 { url := "u1", title := "1" } freshState
    rfl rfl (by decide) (by decide) rfl rfl

/-! ## Claim C1: auxiliary invariants -/

theorem normApp_idem (a : Appraisal) : normApp (normApp a) = normApp a := rfl

theorem extendShape_refl (s : RunState) : ExtendShape s s :=
  ⟨Finset.Subset.refl _, [], by simp, by simp⟩

theorem extendShape_trans {a b c : RunState} (h1 : ExtendShape a b) (h2 : ExtendShape b c) :
    ExtendShape a c := by
  obtain ⟨hp1, t1, ht1, hu1⟩ := h1
  obtain ⟨hp2, t2, ht2, hu2⟩ := h2
  refine ⟨hp1.trans hp2, t1 ++ t2, by rw [ht2, ht1, List.append_assoc], ?_⟩
  intro x hx
  rcases List.mem_append.mp hx with hx | hx
  · exact hu1 x hx
  · exact fun hmem => hu2 x hx (hp1 hmem)

theorem extendShape_processItem (st : Stubs) (page : Nat) (it : Nat × PaintingInfo)
    (s : RunState) : ExtendShape s (processItem st page it s) := by
  obtain ⟨hsub, happ, -, -, -, -⟩ := processItem_shape st page it s
  rcases happ with ⟨ha, -⟩ | ⟨a, ha, hu, hnew, -⟩
  · exact ⟨hsub, [], by simp [ha], by simp⟩
  · exact ⟨hsub, [a], ha, by simpa [hu] using hnew⟩

theorem extendShape_processItems (st : Stubs) (page : Nat) (its : List (Nat × PaintingInfo))
    (s : RunState) : ExtendShape s (processItems st page its s) := by
  refine foldl_preserve (ExtendShape s) (fun r it => processItem st page it r) ?_ its s
    (extendShape_refl s)
  intro r it hr
  exact extendShape_trans hr (extendShape_processItem st page it r)

theorem extendShape_fields (a b b2 : RunState) (h : ExtendShape a b)
    (h1 : b2.appraisals = b.appraisals) (h2 : b2.processed = b.processed) :
    ExtendShape a b2 := by
  obtain ⟨hp, t, ht, hu⟩ := h
  exact ⟨h2 ▸ hp, t, h1 ▸ ht, hu⟩

theorem extendShape_processPage (st : Stubs) (sp si page : Nat) (s : RunState) :
    ExtendShape s (processPage st sp si page s) := by
  by_cases hf : s.stopped = true ∨ s.interrupted = true
  · rw [processPage_frozen st sp si page s hf]
    exact extendShape_refl s
  · push_neg at hf
    have h0 : s.stopped = false := by simpa using hf.1
    have h1 : s.interrupted = false := by simpa using hf.2
    by_cases h2 : (st.listing page).isEmpty = true
    · rw [processPage_empty st sp si page s h0 h1 h2]
      exact extendShape_fields _ _ _ (extendShape_refl s) rfl rfl
    · have hmid : ExtendShape s (processItems st page
          (((st.listing page).drop (if page = sp then si else 0)).enumFrom
            (if page = sp then si else 0))
          { s with events := s.events ++ [Event.fetchList page] }) := by
        refine extendShape_trans (b := { s with events := s.events ++ [Event.fetchList page] })
          ?_ (extendShape_processItems _ _ _ _)
        exact extendShape_fields _ _ _ (extendShape_refl s) rfl rfl
      by_cases h3 : (processItems st page
          (((st.listing page).drop (if page = sp then si else 0)).enumFrom
            (if page = sp then si else 0))
          { s with events := s.events ++ [Event.fetchList page] }).interrupted = true
      · rw [processPage_items_interrupted st sp si page s h0 h1 h2 h3]
        exact hmid
      · rw [Bool.not_eq_true] at h3
        rw [processPage_items_done st sp si page s h0 h1 h2 h3]
        exact extendShape_fields _ _ _ hmid (by simp [doSave]) (by simp [doSave])

theorem budgetNone_processItem (st : Stubs) (page : Nat) (it : Nat × PaintingInfo)
    (s : RunState) (h : s.budget = none) :
    (processItem st page it s).budget = none ∧
    (processItem st page it s).interrupted = s.interrupted :=
  (processItem_shape st page it s).2.2.2.2.2 h

theorem budgetNone_processItems (st : Stubs) (page : Nat) (its : List (Nat × PaintingInfo))
    (s : RunState) (h : s.budget = none) :
    (processItems st page its s).budget = none ∧
    (processItems st page its s).interrupted = s.interrupted := by
  refine foldl_preserve
    (fun r => r.budget = none ∧ r.interrupted = s.interrupted)
    (fun r it => processItem st page it r) ?_ its s ⟨h, rfl⟩
  intro r it ⟨hb, hi⟩
  obtain ⟨hb2, hi2⟩ := budgetNone_processItem st page it r hb
  exact ⟨hb2, hi2.trans hi⟩

theorem budgetNone_processPage (st : Stubs) (sp si page : Nat) (s : RunState)
    (h : s.budget = none) :
    (processPage st sp si page s).budget = none ∧
    (processPage st sp si page s).interrupted = s.interrupted := by
  by_cases hf : s.stopped = true ∨ s.interrupted = true
  · rw [processPage_frozen st sp si page s hf]
    exact ⟨h, rfl⟩
  · push_neg at hf
    have h0 : s.stopped = false := by simpa using hf.1
    have h1 : s.interrupted = false := by simpa using hf.2
    by_cases h2 : (st.listing page).isEmpty = true
    · rw [processPage_empty st sp si page s h0 h1 h2]
      exact ⟨h, rfl⟩
    · obtain ⟨hb2, hi2⟩ := budgetNone_processItems st page
        (((st.listing page).drop (if page = sp then si else 0)).enumFrom
          (if page = sp then si else 0))
        { s with events := s.events ++ [Event.fetchList page] } h
      by_cases h3 : (processItems st page
          (((st.listing page).drop (if page = sp then si else 0)).enumFrom
            (if page = sp then si else 0))
          { s with events := s.events ++ [Event.fetchList page] }).interrupted = true
      · rw [processPage_items_interrupted st sp si page s h0 h1 h2 h3]
        exact ⟨hb2, hi2⟩
      · rw [Bool.not_eq_true] at h3
        rw [processPage_items_done st sp si page s h0 h1 h2 h3]
        exact ⟨hb2, by simp [doSave, hi2]⟩

theorem cleanState_processItem (st : Stubs) (hst : DetailClean st) (page : Nat)
    (it : Nat × PaintingInfo) (s : RunState) (h : CleanState s) :
    CleanState (processItem st page it s) := by
  obtain ⟨i, p⟩ := it
  by_cases hf : s.stopped = true ∨ s.interrupted = true
  · rw [processItem_frozen st page (i, p) s hf]
    exact h
  · push_neg at hf
    have h0 : s.stopped = false := by simpa using hf.1
    have h1 : s.interrupted = false := by simpa using hf.2
    by_cases hb : s.budget = some 0
    · rw [processItem_interrupt st page (i, p) s h0 h1 hb]
      exact h
    · by_cases hm : p.url ∈ s.processed
      · rw [processItem_skip st page i p s h0 h1 hb hm]
        exact h
      · by_cases hr : st.raises p.url = true
        · rw [processItem_raise st page i p s h0 h1 hb hm hr]
          exact h
        · rw [Bool.not_eq_true] at hr
          cases hd : st.detail p.url with
          | none =>
            rw [processItem_noDetail st page i p s h0 h1 hb hm hr hd]
            exact h
          | some d0 =>
            cases hres : (appraisePainting st.maxImages st.oracle { d0 with url := p.url }).1 with
            | none =>
              rw [processItem_noAppraisal st page i p s d0 h0 h1 hb hm hr hd hres]
              exact h
            | some a =>
              have hpair : appraisePainting st.maxImages st.oracle { d0 with url := p.url } =
                  (some a, (appraisePainting st.maxImages st.oracle { d0 with url := p.url }).2) := by
                rw [← hres]
              obtain ⟨e1, -⟩ := processItem_success st page i p s d0 a _ h0 h1 hb hm hr hd hpair
              intro b hb2
              rw [e1, List.mem_append] at hb2
              rcases hb2 with hb2 | hb2
              · exact h b hb2
              · simp at hb2
                subst hb2
                have hpi := appraisePainting_painting_info st.maxImages st.oracle _ b hres
                intro u hu
                rw [hpi] at hu
                exact hst p.url d0 hd u (by simpa using hu)

theorem cleanState_processItems (st : Stubs) (hst : DetailClean st) (page : Nat)
    (its : List (Nat × PaintingInfo)) (s : RunState) (h : CleanState s) :
    CleanState (processItems st page its s) :=
  foldl_preserve CleanState (fun r it => processItem st page it r)
    (fun r it hr => cleanState_processItem st hst page it r hr) its s h

theorem cleanState_processPage (st : Stubs) (hst : DetailClean st) (sp si page : Nat)
    (s : RunState) (h : CleanState s) : CleanState (processPage st sp si page s) := by
  by_cases hf : s.stopped = true ∨ s.interrupted = true
  · rw [processPage_frozen st sp si page s hf]
    exact h
  · push_neg at hf
    have h0 : s.stopped = false := by simpa using hf.1
    have h1 : s.interrupted = false := by simpa using hf.2
    by_cases h2 : (st.listing page).isEmpty = true
    · rw [processPage_empty st sp si page s h0 h1 h2]
      exact h
    · have hmid := cleanState_processItems st hst page
        (((st.listing page).drop (if page = sp then si else 0)).enumFrom
          (if page = sp then si else 0))
        { s with events := s.events ++ [Event.fetchList page] } h
      by_cases h3 : (processItems st page
          (((st.listing page).drop (if page = sp then si else 0)).enumFrom
            (if page = sp then si else 0))
          { s with events := s.events ++ [Event.fetchList page] }).interrupted = true
      · rw [processPage_items_interrupted st sp si page s h0 h1 h2 h3]
        exact hmid
      · rw [Bool.not_eq_true] at h3
        rw [processPage_items_done st sp si page s h0 h1 h2 h3]
        exact hmid

theorem cleanState_runAppraisal (st : Stubs) (hst : DetailClean st) (maxPages : Nat)
    (budget : Option Nat) :
    CleanState (runAppraisal st maxPages none budget).state := by
  rw [runAppraisal_state]
  intro a ha
  refine foldl_preserve CleanState
    (fun s page => processPage st (max 1 (loadAppraisals none).last_page)
      (loadAppraisals none).last_item page s)
    (fun s page hs => cleanState_processPage st hst _ _ page s hs)
    (List.range' (max 1 (loadAppraisals none).last_page)
      (maxPages + 1 - max 1 (loadAppraisals none).last_page))
    { appraisals := (loadAppraisals none).appraisals
      processed := (loadAppraisals none).processed_urls
      dataLastPage := (loadAppraisals none).last_page
      dataLastItem := (loadAppraisals none).last_item
      file := none, events := []
      snaps := [((loadAppraisals none).appraisals, (loadAppraisals none).processed_urls)]
      budget := budget, interrupted := false, stopped := false }
    ?_ a ha
  intro b hb
  exact absurd (show b ∈ ([] : List Appraisal) from hb) (List.not_mem_nil b)

/-- Two active states that agree on whether the item's URL was already
processed take the same `processItem` branch: they append the same
appraisals (at most one, for the item's URL), extend the processed set the
same way, emit the same events (naming only the item's URL), leave the
`stopped` flag alone, stay uninterrupted, and update equal files equally. -/
theorem processItem_lockstep (st : Stubs) (page i : Nat) (p : PaintingInfo)
    (x y : RunState)
    (hx0 : x.stopped = false) (hx1 : x.interrupted = false) (hbx : ¬ x.budget = some 0)
    (hy0 : y.stopped = false) (hy1 : y.interrupted = false) (hby : ¬ y.budget = some 0)
    (hmem : p.url ∈ x.processed ↔ p.url ∈ y.processed) :
    ∃ (da : List Appraisal) (de : List Event) (np : Bool),
      (processItem st page (i, p) x).appraisals = x.appraisals ++ da ∧
      (processItem st page (i, p) y).appraisals = y.appraisals ++ da ∧
      (processItem st page (i, p) x).processed =
        (if np then insert p.url x.processed else x.processed) ∧
      (processItem st page (i, p) y).processed =
        (if np then insert p.url y.processed else y.processed) ∧
      (processItem st page (i, p) x).events = x.events ++ de ∧
      (processItem st page (i, p) y).events = y.events ++ de ∧
      (processItem st page (i, p) x).stopped = x.stopped ∧
      (processItem st page (i, p) y).stopped = y.stopped ∧
      (processItem st page (i, p) x).interrupted = false ∧
      (processItem st page (i, p) y).interrupted = false ∧
      (∀ a ∈ da, urlOf a = p.url) ∧
      (np = true → p.url ∉ x.processed) ∧
      (∀ u, (Event.fetchDetail u ∈ de ∨ Event.oracleCall u ∈ de) → u = p.url) ∧
      (x.file = y.file → x.appraisals = y.appraisals →
        (processItem st page (i, p) x).file = (processItem st page (i, p) y).file) := by
  by_cases hm : p.url ∈ x.processed
  · have hm2 : p.url ∈ y.processed := hmem.mp hm
    rw [processItem_skip st page i p x hx0 hx1 hbx hm,
        processItem_skip st page i p y hy0 hy1 hby hm2]
    refine ⟨[], [], false, by simp [pushSnap, decBudget], by simp [pushSnap, decBudget],
      by simp [pushSnap, decBudget], by simp [pushSnap, decBudget],
      by simp [pushSnap, decBudget], by simp [pushSnap, decBudget],
      by simp [pushSnap, decBudget], by simp [pushSnap, decBudget],
      by simp [pushSnap, decBudget, hx1], by simp [pushSnap, decBudget, hy1],
      by simp, by simp, by simp, fun hf _ => by simp [pushSnap, decBudget, hf]⟩
  · have hm2 : p.url ∉ y.processed := fun hc => hm (hmem.mpr hc)
    by_cases hr : st.raises p.url = true
    · rw [processItem_raise st page i p x hx0 hx1 hbx hm hr,
          processItem_raise st page i p y hy0 hy1 hby hm2 hr]
      refine ⟨[], [Event.saveEvent], true, ?_⟩
      refine ⟨by simp [pushSnap, doSave, decBudget], by simp [pushSnap, doSave, decBudget],
        by simp [pushSnap, doSave, decBudget], by simp [pushSnap, doSave, decBudget],
        by simp [pushSnap, doSave, decBudget], by simp [pushSnap, doSave, decBudget],
        by simp [pushSnap, doSave, decBudget, hx0], by simp [pushSnap, doSave, decBudget, hy0],
        by simp [pushSnap, doSave, decBudget, hx1], by simp [pushSnap, doSave, decBudget, hy1],
        by simp, fun _ => hm, by simp, ?_⟩
      intro hf ha
      simp [pushSnap, doSave, decBudget, saveAppraisals, ha, hf]
    · rw [Bool.not_eq_true] at hr
      cases hd : st.detail p.url with
      | none =>
        rw [processItem_noDetail st page i p x hx0 hx1 hbx hm hr hd,
            processItem_noDetail st page i p y hy0 hy1 hby hm2 hr hd]
        refine ⟨[], [Event.fetchDetail p.url], true, ?_⟩
        refine ⟨by simp [pushSnap, decBudget], by simp [pushSnap, decBudget],
          by simp [pushSnap, decBudget], by simp [pushSnap, decBudget],
          by simp [pushSnap, decBudget], by simp [pushSnap, decBudget],
          by simp [pushSnap, decBudget, hx0], by simp [pushSnap, decBudget, hy0],
          by simp [pushSnap, decBudget, hx1], by simp [pushSnap, decBudget, hy1],
          by simp, fun _ => hm, ?_, ?_⟩
        · intro u hu
          rcases hu with hu | hu <;> simp at hu <;>
            first
            | exact hu
            | exact hu.symm
            | exact hu.1
            | exact hu.1.symm
            | exact hu.2
            | exact hu.2.symm
        · intro hf _
          simp [pushSnap, decBudget, hf]
      | some d0 =>
        cases hres : (appraisePainting st.maxImages st.oracle { d0 with url := p.url }).1 with
        | none =>
          rw [processItem_noAppraisal st page i p x d0 hx0 hx1 hbx hm hr hd hres,
              processItem_noAppraisal st page i p y d0 hy0 hy1 hby hm2 hr hd hres]
          refine ⟨[], [Event.fetchDetail p.url] ++
            (if (appraisePainting st.maxImages st.oracle { d0 with url := p.url }).2 then
              [Event.oracleCall p.url] else []), true, ?_⟩
          refine ⟨by simp [pushSnap, decBudget], by simp [pushSnap, decBudget],
            by simp [pushSnap, decBudget], by simp [pushSnap, decBudget],
            by simp [pushSnap, decBudget, List.append_assoc],
            by simp [pushSnap, decBudget, List.append_assoc],
            by simp [pushSnap, decBudget, hx0], by simp [pushSnap, decBudget, hy0],
            by simp [pushSnap, decBudget, hx1], by simp [pushSnap, decBudget, hy1],
            by simp, fun _ => hm, ?_, ?_⟩
          · intro u hu
            rcases hu with hu | hu <;> simp at hu <;>
              first
              | exact hu
              | exact hu.symm
              | exact hu.1
              | exact hu.1.symm
              | exact hu.2
              | exact hu.2.symm
          · intro hf _
            simp [pushSnap, decBudget, hf]
        | some a =>
          have hpair : appraisePainting st.maxImages st.oracle { d0 with url := p.url } =
              (some a, (appraisePainting st.maxImages st.oracle { d0 with url := p.url }).2) := by
            rw [← hres]
          obtain ⟨ex1, ex2, ex3, ex4, ex5, ex6, ex7, ex8, ex9, ex10⟩ :=
            processItem_success st page i p x d0 a _ hx0 hx1 hbx hm hr hd hpair
          obtain ⟨ey1, ey2, ey3, ey4, ey5, ey6, ey7, ey8, ey9, ey10⟩ :=
            processItem_success st page i p y d0 a _ hy0 hy1 hby hm2 hr hd hpair
          refine ⟨[a], [Event.fetchDetail p.url] ++
            (if (appraisePainting st.maxImages st.oracle { d0 with url := p.url }).2 then
              [Event.oracleCall p.url] else []) ++
            (if (i + 1) % 5 = 0 then [Event.saveEvent] else []) ++ [Event.sleepItem],
            true, ?_⟩
          have hurl : urlOf a = p.url := by
            have := appraisePainting_painting_info st.maxImages st.oracle _ a hres
            simp [urlOf, this]
          refine ⟨ex1, ey1, by simp [ex2], by simp [ey2],
            by rw [ex3]; simp [List.append_assoc], by rw [ey3]; simp [List.append_assoc],
            by rw [ex6, hx0], by rw [ey6, hy0], ex5, ey5,
            by simpa using hurl, fun _ => hm, ?_, ?_⟩
          · intro u hu
            rcases hu with hu | hu <;> simp at hu <;>
              first
              | exact hu
              | exact hu.symm
              | exact hu.1
              | exact hu.1.symm
              | exact hu.2
              | exact hu.2.symm
          · intro hf ha
            rw [ex10, ey10, ha, hf]
            split <;> simp [saveAppraisals]

theorem cutRel_processItem (st : Stubs) (page : Nat) (it : Nat × PaintingInfo)
    (sb su : RunState) (h : CutRel sb su) :
    CutRel (processItem st page it sb) (processItem st page it su) := by
  obtain ⟨hui, hub, hcase⟩ := h
  obtain ⟨i, p⟩ := it
  rcases hcase with ⟨hbi, happ, hproc, hstop, hfile⟩ | ⟨hbi, hsub, t, ht, hturl⟩
  · by_cases hs : sb.stopped = true
    · have hsu : su.stopped = true := hstop ▸ hs
      rw [processItem_frozen st page (i, p) sb (Or.inl hs),
          processItem_frozen st page (i, p) su (Or.inl hsu)]
      exact ⟨hui, hub, Or.inl ⟨hbi, happ, hproc, hstop, hfile⟩⟩
    · rw [Bool.not_eq_true] at hs
      have hsu0 : su.stopped = false := hstop ▸ hs
      by_cases hbz : sb.budget = some 0
      · rw [processItem_interrupt st page (i, p) sb hs hbi hbz]
        obtain ⟨hsub2, happ2, -, -, -, hbn⟩ := processItem_shape st page (i, p) su
        obtain ⟨hb2, hi2⟩ := hbn hub
        refine ⟨hi2.trans hui, hb2, Or.inr ⟨rfl, ?_, ?_⟩⟩
        · show sb.processed ⊆ _
          rw [hproc]
          exact hsub2
        · rcases happ2 with ⟨ha, -⟩ | ⟨a, ha, hu, hnew, -⟩
          · exact ⟨[], by rw [ha, happ]; simp, by simp⟩
          · refine ⟨[a], by rw [ha, happ], ?_⟩
            intro b hb
            simp at hb
            subst hb
            rw [hu, hproc]
            exact hnew
      · have hby : ¬ su.budget = some 0 := by rw [hub]; simp
        obtain ⟨da, de, np, l1, l2, l3, l4, l5, l6, l7, l8, l9, l10, l11, l12, l13, l14⟩ :=
          processItem_lockstep st page i p sb su hs hbi hbz hsu0 hui hby
          (by rw [hproc])
        obtain ⟨hb2, -⟩ := budgetNone_processItem st page (i, p) su hub
        refine ⟨l10, hb2, Or.inl ⟨l9, ?_, ?_, ?_, ?_⟩⟩
        · rw [l1, l2, happ]
        · rw [l3, l4, hproc]
        · rw [l7, l8, hstop]
        · exact l14 hfile happ
  · rw [processItem_frozen st page (i, p) sb (Or.inr hbi)]
    obtain ⟨hsub2, happ2, -, -, -, hbn⟩ := processItem_shape st page (i, p) su
    obtain ⟨hb2, hi2⟩ := hbn hub
    refine ⟨hi2.trans hui, hb2, Or.inr ⟨hbi, hsub.trans hsub2, ?_⟩⟩
    rcases happ2 with ⟨ha, -⟩ | ⟨a, ha, hu, hnew, -⟩
    · exact ⟨t, by rw [ha, ht], hturl⟩
    · refine ⟨t ++ [a], by rw [ha, ht, List.append_assoc], ?_⟩
      intro b hb
      rcases List.mem_append.mp hb with hb | hb
      · exact hturl b hb
      · simp at hb
        subst hb
        rw [hu]
        intro hc
        exact hnew (hsub hc)

theorem cutRel_processItems (st : Stubs) (page : Nat) (its : List (Nat × PaintingInfo))
    (sb su : RunState) (h : CutRel sb su) :
    CutRel (processItems st page its sb) (processItems st page its su) :=
  foldl_rel CutRel _ _ (fun a b x hr => cutRel_processItem st page x a b hr) its sb su h

theorem cutRel_doSave (sb su : RunState) (h : CutRel sb su) :
    CutRel (doSave sb) (doSave su) := by
  obtain ⟨hui, hub, hcase⟩ := h
  rcases hcase with ⟨hbi, happ, hproc, hstop, hfile⟩ | ⟨hbi, hsub, t, ht, hturl⟩
  · refine ⟨by simp [doSave, hui], by simp [doSave, hub],
      Or.inl ⟨by simp [doSave, hbi], by simp [doSave, happ], by simp [doSave, hproc],
        by simp [doSave, hstop], ?_⟩⟩
    simp only [doSave]
    simp [saveAppraisals, happ, hfile]
  · exact ⟨by simp [doSave, hui], by simp [doSave, hub],
      Or.inr ⟨by simp [doSave, hbi], by simpa [doSave] using hsub,
        t, by simpa [doSave] using ht, fun a ha => by simpa [doSave] using hturl a ha⟩⟩

theorem cutRel_processPage (st : Stubs) (sp si page : Nat) (sb su : RunState)
    (h : CutRel sb su) :
    CutRel (processPage st sp si page sb) (processPage st sp si page su) := by
  obtain ⟨hui, hub, hcase⟩ := h
  rcases hcase with ⟨hbi, happ, hproc, hstop, hfile⟩ | ⟨hbi, hsub, t, ht, hturl⟩
  · by_cases hs : sb.stopped = true
    · have hsu : su.stopped = true := hstop ▸ hs
      rw [processPage_frozen st sp si page sb (Or.inl hs),
          processPage_frozen st sp si page su (Or.inl hsu)]
      exact ⟨hui, hub, Or.inl ⟨hbi, happ, hproc, hstop, hfile⟩⟩
    · rw [Bool.not_eq_true] at hs
      have hsu0 : su.stopped = false := hstop ▸ hs
      by_cases h2 : (st.listing page).isEmpty = true
      · rw [processPage_empty st sp si page sb hs hbi h2,
            processPage_empty st sp si page su hsu0 hui h2]
        exact ⟨hui, hub, Or.inl ⟨hbi, happ, hproc, by simp, hfile⟩⟩
      · have hrel0 : CutRel { sb with events := sb.events ++ [Event.fetchList page] }
            { su with events := su.events ++ [Event.fetchList page] } :=
          ⟨hui, hub, Or.inl ⟨hbi, happ, hproc, hstop, hfile⟩⟩
        have hrel := cutRel_processItems st page
          (((st.listing page).drop (if page = sp then si else 0)).enumFrom
            (if page = sp then si else 0)) _ _ hrel0
        obtain ⟨hui2, hub2, hcase2⟩ := hrel
        rcases hcase2 with ⟨hbi2, happ2, hproc2, hstop2, hfile2⟩ | ⟨hbi2, hsub2, t2, ht2, hturl2⟩
        · rw [processPage_items_done st sp si page sb hs hbi h2 hbi2,
              processPage_items_done st sp si page su hsu0 hui h2 hui2]
          refine ⟨by simp [doSave, hui2], by simp [doSave, hub2],
            Or.inl ⟨by simp [doSave, hbi2], by simp [doSave, happ2],
              by simp [doSave, hproc2], by simp [doSave, hstop2], ?_⟩⟩
          simp only [doSave]
          simp [saveAppraisals, happ2, hfile2]
        · rw [processPage_items_interrupted st sp si page sb hs hbi h2 hbi2,
              processPage_items_done st sp si page su hsu0 hui h2 hui2]
          exact ⟨by simp [doSave, hui2], by simp [doSave, hub2],
            Or.inr ⟨hbi2, by simpa [doSave] using hsub2,
              t2, by simpa [doSave] using ht2, hturl2⟩⟩
  · rw [processPage_frozen st sp si page sb (Or.inr hbi)]
    obtain ⟨hp2, t2, ht2, hu2⟩ := extendShape_processPage st sp si page su
    obtain ⟨hb2, hi2⟩ := budgetNone_processPage st sp si page su hub
    refine ⟨hi2.trans hui, hb2, Or.inr ⟨hbi, hsub.trans hp2, t ++ t2, ?_, ?_⟩⟩
    · rw [ht2, ht, List.append_assoc]
    · intro b hb
      rcases List.mem_append.mp hb with hb | hb
      · exact hturl b hb
      · exact fun hc => hu2 b hb (hsub hc)

theorem cutRel_runAppraisal (st : Stubs) (maxPages k : Nat) :
    CutRel (runAppraisal st maxPages none (some k)).state
      (runAppraisal st maxPages none none).state := by
  rw [runAppraisal_state, runAppraisal_state]
  refine cutRel_doSave _ _ (foldl_rel CutRel _ _
    (fun a b page hr => cutRel_processPage st _ _ page a b hr) _ _ _ ?_)
  exact ⟨rfl, rfl, Or.inl ⟨rfl, rfl, rfl, rfl, rfl⟩⟩

theorem emptyFileInv_processItem (st : Stubs) (page : Nat) (it : Nat × PaintingInfo)
    (s : RunState) (h : EmptyFileInv s) : EmptyFileInv (processItem st page it s) := by
  obtain ⟨i, p⟩ := it
  by_cases hf : s.stopped = true ∨ s.interrupted = true
  · rw [processItem_frozen st page (i, p) s hf]
    exact h
  · push_neg at hf
    have h0 : s.stopped = false := by simpa using hf.1
    have h1 : s.interrupted = false := by simpa using hf.2
    by_cases hb : s.budget = some 0
    · rw [processItem_interrupt st page (i, p) s h0 h1 hb]
      exact h
    · by_cases hm : p.url ∈ s.processed
      · rw [processItem_skip st page i p s h0 h1 hb hm]
        exact h
      · by_cases hr : st.raises p.url = true
        · rw [processItem_raise st page i p s h0 h1 hb hm hr]
          intro ha
          have ha2 : s.appraisals = [] := by
            simpa [pushSnap, doSave, decBudget] using ha
          simp [pushSnap, doSave, decBudget, saveAppraisals, ha2, h ha2]
        · rw [Bool.not_eq_true] at hr
          cases hd : st.detail p.url with
          | none =>
            rw [processItem_noDetail st page i p s h0 h1 hb hm hr hd]
            exact h
          | some d0 =>
            cases hres : (appraisePainting st.maxImages st.oracle { d0 with url := p.url }).1 with
            | none =>
              rw [processItem_noAppraisal st page i p s d0 h0 h1 hb hm hr hd hres]
              exact h
            | some a =>
              have hpair : appraisePainting st.maxImages st.oracle { d0 with url := p.url } =
                  (some a, (appraisePainting st.maxImages st.oracle { d0 with url := p.url }).2) := by
                rw [← hres]
              obtain ⟨e1, -⟩ := processItem_success st page i p s d0 a _ h0 h1 hb hm hr hd hpair
              intro ha
              rw [e1] at ha
              simp at ha

theorem emptyFileInv_processItems (st : Stubs) (page : Nat) (its : List (Nat × PaintingInfo))
    (s : RunState) (h : EmptyFileInv s) : EmptyFileInv (processItems st page its s) :=
  foldl_preserve EmptyFileInv (fun r it => processItem st page it r)
    (fun r it hr => emptyFileInv_processItem st page it r hr) its s h

theorem emptyFileInv_doSave (s : RunState) (h : EmptyFileInv s) : EmptyFileInv (doSave s) := by
  intro ha
  have ha2 : s.appraisals = [] := by simpa [doSave] using ha
  simp [doSave, saveAppraisals, ha2, h ha2]

theorem emptyFileInv_processPage (st : Stubs) (sp si page : Nat) (s : RunState)
    (h : EmptyFileInv s) : EmptyFileInv (processPage st sp si page s) := by
  by_cases hf : s.stopped = true ∨ s.interrupted = true
  · rw [processPage_frozen st sp si page s hf]
    exact h
  · push_neg at hf
    have h0 : s.stopped = false := by simpa using hf.1
    have h1 : s.interrupted = false := by simpa using hf.2
    by_cases h2 : (st.listing page).isEmpty = true
    · rw [processPage_empty st sp si page s h0 h1 h2]
      exact h
    · have hmid := emptyFileInv_processItems st page
        (((st.listing page).drop (if page = sp then si else 0)).enumFrom
          (if page = sp then si else 0))
        { s with events := s.events ++ [Event.fetchList page] } h
      by_cases h3 : (processItems st page
          (((st.listing page).drop (if page = sp then si else 0)).enumFrom
            (if page = sp then si else 0))
          { s with events := s.events ++ [Event.fetchList page] }).interrupted = true
      · rw [processPage_items_interrupted st sp si page s h0 h1 h2 h3]
        exact hmid
      · rw [Bool.not_eq_true] at h3
        rw [processPage_items_done st sp si page s h0 h1 h2 h3]
        intro ha
        have ha2 : (processItems st page
            (((st.listing page).drop (if page = sp then si else 0)).enumFrom
              (if page = sp then si else 0))
            { s with events := s.events ++ [Event.fetchList page] }).appraisals = [] := by
          simpa [doSave] using ha
        simp [doSave, saveAppraisals, ha2, hmid ha2]

/-- A run started without a file ends with the file absent when it
collected nothing, and otherwise holding exactly its appraisals' rows
sorted by descending best value (the terminal save). -/
theorem runFromNone_file (st : Stubs) (maxPages : Nat) (budget : Option Nat) :
    (runAppraisal st maxPages none budget).state.file =
      (if (runAppraisal st maxPages none budget).state.appraisals.isEmpty then none
       else some (sortByDesc Row.estimated_value_best
         ((runAppraisal st maxPages none budget).state.appraisals.map rowOfAppraisal))) := by
  rw [runAppraisal_state]
  have hinv : EmptyFileInv ((List.range' (max 1 (loadAppraisals none).last_page)
      (maxPages + 1 - max 1 (loadAppraisals none).last_page)).foldl
      (fun s page => processPage st (max 1 (loadAppraisals none).last_page)
        (loadAppraisals none).last_item page s)
      { appraisals := (loadAppraisals none).appraisals
        processed := (loadAppraisals none).processed_urls
        dataLastPage := (loadAppraisals none).last_page
        dataLastItem := (loadAppraisals none).last_item
        file := none, events := []
        snaps := [((loadAppraisals none).appraisals, (loadAppraisals none).processed_urls)]
        budget := budget, interrupted := false, stopped := false }) := by
    refine foldl_preserve EmptyFileInv _
      (fun s page hs => emptyFileInv_processPage st _ _ page s hs) _ _ ?_
    intro _
    rfl
  cases ha : ((List.range' (max 1 (loadAppraisals none).last_page)
      (maxPages + 1 - max 1 (loadAppraisals none).last_page)).foldl
      (fun s page => processPage st (max 1 (loadAppraisals none).last_page)
        (loadAppraisals none).last_item page s)
      { appraisals := (loadAppraisals none).appraisals
        processed := (loadAppraisals none).processed_urls
        dataLastPage := (loadAppraisals none).last_page
        dataLastItem := (loadAppraisals none).last_item
        file := none, events := []
        snaps := [((loadAppraisals none).appraisals, (loadAppraisals none).processed_urls)]
        budget := budget, interrupted := false, stopped := false }).appraisals.isEmpty with
  | true =>
    have ha2 := List.isEmpty_iff.mp ha
    simp [doSave, saveAppraisals, ha2, hinv ha2]
  | false =>
    have hne : ¬ ((List.range' (max 1 (loadAppraisals none).last_page)
        (maxPages + 1 - max 1 (loadAppraisals none).last_page)).foldl
        (fun s page => processPage st (max 1 (loadAppraisals none).last_page)
          (loadAppraisals none).last_item page s)
        { appraisals := (loadAppraisals none).appraisals
          processed := (loadAppraisals none).processed_urls
          dataLastPage := (loadAppraisals none).last_page
          dataLastItem := (loadAppraisals none).last_item
          file := none, events := []
          snaps := [((loadAppraisals none).appraisals, (loadAppraisals none).processed_urls)]
          budget := budget, interrupted := false, stopped := false }).appraisals = [] := by
      intro hc
      rw [hc] at ha
      simp at ha
    simp [doSave, saveAppraisals, ha, hne]

theorem resRel_processItem (st : Stubs) (page : Nat) (it : Nat × PaintingInfo)
    (P0 : Finset String) (L0 : List Appraisal) (s2 su : RunState)
    (h : ResRel P0 L0 s2 su) :
    ResRel P0 L0 (processItem st page it s2) (processItem st page it su) := by
  obtain ⟨hproc, happ, hstop, hi2, hiu, hb2, hbu, hef, heo⟩ := h
  obtain ⟨i, p⟩ := it
  by_cases hs : su.stopped = true
  · have hs2 : s2.stopped = true := hstop ▸ hs
    rw [processItem_frozen st page (i, p) s2 (Or.inl hs2),
        processItem_frozen st page (i, p) su (Or.inl hs)]
    exact ⟨hproc, happ, hstop, hi2, hiu, hb2, hbu, hef, heo⟩
  · rw [Bool.not_eq_true] at hs
    have hs2 : s2.stopped = false := hstop ▸ hs
    have hq2 : ¬ s2.budget = some 0 := by rw [hb2]; simp
    have hqu : ¬ su.budget = some 0 := by rw [hbu]; simp
    by_cases hp0 : p.url ∈ P0
    · have hmem2 : p.url ∈ s2.processed := by
        rw [hproc]
        exact Finset.mem_union_left _ hp0
      rw [processItem_skip st page i p s2 hs2 hi2 hq2 hmem2]
      obtain ⟨hsubU, happU, -, -, hstopU, hbnU⟩ := processItem_shape st page (i, p) su
      obtain ⟨hbU, hiU⟩ := hbnU hbu
      refine ⟨?_, ?_, ?_, by simp [pushSnap, decBudget, hi2], hiU.trans hiu,
        by simp [pushSnap, decBudget, hb2], hbU, ?_, ?_⟩
      · show s2.processed = P0 ∪ (processItem st page (i, p) su).processed
        rcases happU with ⟨-, hpr⟩ | ⟨a, -, -, -, hpr⟩
        · rcases hpr with hpr | hpr
          · rw [show (processItem st page (i, p) su).processed = su.processed from hpr, hproc]
          · rw [show (processItem st page (i, p) su).processed =
              insert p.url su.processed from hpr, hproc]
            rw [Finset.union_insert]
            rw [Finset.insert_eq_self.mpr (Finset.mem_union_left _ hp0)]
        · rw [hpr, hproc, Finset.union_insert,
            Finset.insert_eq_self.mpr (Finset.mem_union_left _ hp0)]
      · show s2.appraisals = L0 ++ (processItem st page (i, p) su).appraisals.filter _
        rcases happU with ⟨hpr, -⟩ | ⟨a, hpr, hu, -, -⟩
        · rw [hpr, happ]
        · rw [hpr, List.filter_append, happ]
          have : (List.filter (fun a => decide (urlOf a ∉ P0)) [a]) = [] := by
            simp [hu, hp0]
          rw [this, List.append_nil]
      · show s2.stopped = _
        rw [hstopU, hstop]
      · intro u hu
        exact hef u hu
      · intro u hu
        exact heo u hu
    · have hmem : p.url ∈ s2.processed ↔ p.url ∈ su.processed := by
        rw [hproc]
        constructor
        · intro hmem
          rcases Finset.mem_union.mp hmem with hmem | hmem
          · exact absurd hmem hp0
          · exact hmem
        · exact fun hmem => Finset.mem_union_right _ hmem
      obtain ⟨da, de, np, l1, l2, l3, l4, l5, l6, l7, l8, l9, l10, l11, l12, l13, l14⟩ :=
        processItem_lockstep st page i p s2 su hs2 hi2 hq2 hs hiu hqu hmem
      obtain ⟨hbU, -⟩ := budgetNone_processItem st page (i, p) su hbu
      obtain ⟨hb2x, -⟩ := budgetNone_processItem st page (i, p) s2 hb2
      refine ⟨?_, ?_, by rw [l7, l8, hstop], l9, l10, hb2x, hbU, ?_, ?_⟩
      · rw [l3, l4, hproc]
        cases np with
        | false => simp
        | true => simp [Finset.union_insert]
      · rw [l1, l2, happ, List.filter_append]
        have hda : List.filter (fun a => decide (urlOf a ∉ P0)) da = da := by
          refine List.filter_eq_self.mpr ?_
          intro a ha
          rw [l11 a ha]
          simpa using hp0
        rw [hda, List.append_assoc]
      · intro u hu
        rw [l5] at hu
        rcases List.mem_append.mp hu with hu | hu
        · exact hef u hu
        · rw [l13 u (Or.inl hu)]
          exact hp0
      · intro u hu
        rw [l5] at hu
        rcases List.mem_append.mp hu with hu | hu
        · exact heo u hu
        · rw [l13 u (Or.inr hu)]
          exact hp0

theorem resRel_processItems (st : Stubs) (page : Nat) (its : List (Nat × PaintingInfo))
    (P0 : Finset String) (L0 : List Appraisal) (s2 su : RunState)
    (h : ResRel P0 L0 s2 su) :
    ResRel P0 L0 (processItems st page its s2) (processItems st page its su) :=
  foldl_rel (ResRel P0 L0) _ _
    (fun a b x hr => resRel_processItem st page x P0 L0 a b hr) its s2 su h

theorem resRel_events_append (P0 : Finset String) (L0 : List Appraisal)
    (s2 su s2b sub : RunState) (h : ResRel P0 L0 s2 su) (es : List Event)
    (hb : s2b.appraisals = s2.appraisals ∧ s2b.processed = s2.processed ∧
      s2b.interrupted = s2.interrupted ∧ s2b.budget = s2.budget ∧
      s2b.events = s2.events ++ es)
    (hu : sub.appraisals = su.appraisals ∧ sub.processed = su.processed ∧
      sub.interrupted = su.interrupted ∧ sub.budget = su.budget)
    (hst : s2b.stopped = sub.stopped)
    (he : ∀ u, Event.fetchDetail u ∉ es ∧ Event.oracleCall u ∉ es) :
    ResRel P0 L0 s2b sub := by
  obtain ⟨hproc, happ, hstop, hi2, hiu, hb2, hbu, hef, heo⟩ := h
  obtain ⟨b1, b2, b4, b5, b6⟩ := hb
  obtain ⟨u1, u2, u4, u5⟩ := hu
  refine ⟨by rw [b2, u2, hproc], by rw [b1, u1, happ], hst,
    by rw [b4, hi2], by rw [u4, hiu], by rw [b5, hb2], by rw [u5, hbu], ?_, ?_⟩
  · intro u hmem
    rw [b6] at hmem
    rcases List.mem_append.mp hmem with hmem | hmem
    · exact hef u hmem
    · exact absurd hmem (he u).1
  · intro u hmem
    rw [b6] at hmem
    rcases List.mem_append.mp hmem with hmem | hmem
    · exact heo u hmem
    · exact absurd hmem (he u).2

theorem resRel_processPage (st : Stubs) (sp si page : Nat)
    (P0 : Finset String) (L0 : List Appraisal) (s2 su : RunState)
    (h : ResRel P0 L0 s2 su) :
    ResRel P0 L0 (processPage st sp si page s2) (processPage st sp si page su) := by
  have hstop := h.2.2.1
  have hi2 := h.2.2.2.1
  have hiu := h.2.2.2.2.1
  by_cases hs : su.stopped = true
  · have hs2 : s2.stopped = true := hstop ▸ hs
    rw [processPage_frozen st sp si page s2 (Or.inl hs2),
        processPage_frozen st sp si page su (Or.inl hs)]
    exact h
  · rw [Bool.not_eq_true] at hs
    have hs2 : s2.stopped = false := hstop ▸ hs
    by_cases h2 : (st.listing page).isEmpty = true
    · rw [processPage_empty st sp si page s2 hs2 hi2 h2,
          processPage_empty st sp si page su hs hiu h2]
      exact resRel_events_append P0 L0 s2 su _ _ h [Event.fetchList page]
        ⟨rfl, rfl, rfl, rfl, rfl⟩ ⟨rfl, rfl, rfl, rfl⟩ rfl
        (fun u => ⟨by simp, by simp⟩)
    · have hrel0 : ResRel P0 L0 { s2 with events := s2.events ++ [Event.fetchList page] }
          { su with events := su.events ++ [Event.fetchList page] } :=
        resRel_events_append P0 L0 s2 su _ _ h [Event.fetchList page]
          ⟨rfl, rfl, rfl, rfl, rfl⟩ ⟨rfl, rfl, rfl, rfl⟩ (by show s2.stopped = su.stopped; exact hstop)
          (fun u => ⟨by simp, by simp⟩)
      have hrel := resRel_processItems st page
        (((st.listing page).drop (if page = sp then si else 0)).enumFrom
          (if page = sp then si else 0)) P0 L0 _ _ hrel0
      have hi2f := hrel.2.2.2.1
      have hiuf := hrel.2.2.2.2.1
      rw [processPage_items_done st sp si page s2 hs2 hi2 h2 hi2f,
          processPage_items_done st sp si page su hs hiu h2 hiuf]
      refine resRel_events_append P0 L0 _ _ _ _ hrel [Event.saveEvent, Event.sleepPage]
        ⟨by simp [doSave], by simp [doSave], by simp [doSave], by simp [doSave], ?_⟩
        ⟨by simp [doSave], by simp [doSave], by simp [doSave], by simp [doSave]⟩
        ?_ (fun u => ⟨by simp, by simp⟩)
      · simp [doSave]
      · show (doSave _).stopped = (doSave _).stopped
        simp only [doSave]
        exact hrel.2.2.1

theorem resRel_doSave (P0 : Finset String) (L0 : List Appraisal) (s2 su : RunState)
    (h : ResRel P0 L0 s2 su) : ResRel P0 L0 (doSave s2) (doSave su) :=
  resRel_events_append P0 L0 s2 su _ _ h [Event.saveEvent]
    ⟨by simp [doSave], by simp [doSave], by simp [doSave], by simp [doSave], by simp [doSave]⟩
    ⟨by simp [doSave], by simp [doSave], by simp [doSave], by simp [doSave]⟩
    (by simp only [doSave]; exact h.2.2.1)
    (fun u => ⟨by simp, by simp⟩)

theorem resRel_runAppraisal (st : Stubs) (maxPages : Nat) (fileR : Option (List Row)) :
    ResRel (loadAppraisals fileR).processed_urls (loadAppraisals fileR).appraisals
      (runAppraisal st maxPages fileR none).state
      (runAppraisal st maxPages none none).state := by
  rw [runAppraisal_state, runAppraisal_state]
  have h1 : (loadAppraisals fileR).last_page = 0 := by cases fileR <;> rfl
  have h2 : (loadAppraisals fileR).last_item = 0 := by cases fileR <;> rfl
  rw [h1, h2]
  refine resRel_doSave _ _ _ _ (foldl_rel
    (ResRel (loadAppraisals fileR).processed_urls (loadAppraisals fileR).appraisals) _ _
    (fun a b page hr => resRel_processPage st _ _ page _ _ a b hr) _ _ _ ?_)
  refine ⟨?_, ?_, rfl, rfl, rfl, rfl, rfl, ?_, ?_⟩
  · show (loadAppraisals fileR).processed_urls =
      (loadAppraisals fileR).processed_urls ∪ (loadAppraisals none).processed_urls
    simp [loadAppraisals]
  · show (loadAppraisals fileR).appraisals = (loadAppraisals fileR).appraisals ++
      (loadAppraisals none).appraisals.filter
        (fun a => decide (urlOf a ∉ (loadAppraisals fileR).processed_urls))
    simp [loadAppraisals]
  · intro u hu
    exact absurd (show Event.fetchDetail u ∈ ([] : List Event) from hu) (by simp)
  · intro u hu
    exact absurd (show Event.oracleCall u ∈ ([] : List Event) from hu) (by simp)

/-! ## Claim C1: counterexample and amended theorem -/

/-- C1 counterexample: item A is processed (its detail fetch fails) before
the interrupt fires on item B, so A is in the interrupted run's processed
set; but the saved artifact holds no Valuation, so the resumed run fetches
A's detail again — a URL already in the processed set is re-fetched. -/
theorem c1_counterexample :
    (runAppraisal failStubsAB 1 none (some 1)).state.interrupted = true ∧
    "A" ∈ (runAppraisal failStubsAB 1 none (some 1)).state.processed ∧
    Event.fetchDetail "A" ∈
      (runAppraisal failStubsAB 1
        (runAppraisal failStubsAB 1 none (some 1)).state.file none).state.events := by
  decide

/-- C1 (amended): interrupting after item `k`, saving (the `finally` save)
and resuming yields, once both runs complete, the same processed-URL set
and the same Valuation multiset up to the persistence normalization of the
Valuations that crossed the save/load boundary; no Valuation is collected
twice (source URLs stay pairwise distinct) and no URL of the loaded
processed set — the URLs whose Valuation was saved — is fetched or
appraised again. URLs that were processed without a Valuation are not
persisted and may be re-fetched by the resumed run. The hypothesis asks
the detail stub for clean image URLs, as `get_painting_details`
guarantees. -/
theorem c1_resumption_amended (st : Stubs) (maxPages k : Nat) (hst : DetailClean st) :
    (runAppraisal st maxPages
        (runAppraisal st maxPages none (some k)).state.file none).state.processed =
      (runAppraisal st maxPages none none).state.processed ∧
    ((runAppraisal st maxPages (runAppraisal st maxPages none (some k)).state.file
        none).state.appraisals.map normApp).Perm
      ((runAppraisal st maxPages none none).state.appraisals.map normApp) ∧
    ((runAppraisal st maxPages (runAppraisal st maxPages none (some k)).state.file
        none).state.appraisals.map urlOf).Nodup ∧
    (∀ v, v ∈ (loadAppraisals
        (runAppraisal st maxPages none (some k)).state.file).processed_urls →
      Event.fetchDetail v ∉ (runAppraisal st maxPages
        (runAppraisal st maxPages none (some k)).state.file none).state.events ∧
      Event.oracleCall v ∉ (runAppraisal st maxPages
        (runAppraisal st maxPages none (some k)).state.file none).state.events) := by
  set r1 : RunState := (runAppraisal st maxPages none (some k)).state with hr1def
  set u : RunState := (runAppraisal st maxPages none none).state with hudef
  set r2 : RunState := (runAppraisal st maxPages r1.file none).state with hr2def
  obtain ⟨hui, hub, hcase⟩ := cutRel_runAppraisal st maxPages k
  have hsub1 : r1.processed ⊆ u.processed := by
    rcases hcase with ⟨-, -, hp, -, -⟩ | ⟨-, hp, -⟩
    · rw [hp]
    · exact hp
  obtain ⟨t, htu, hturl⟩ : ∃ t, u.appraisals = r1.appraisals ++ t ∧
      ∀ a ∈ t, urlOf a ∉ r1.processed := by
    rcases hcase with ⟨-, hp, -, -, -⟩ | ⟨-, -, t, ht, hturl⟩
    · exact ⟨[], by rw [hp]; simp, by simp⟩
    · exact ⟨t, ht, hturl⟩
  have hgood1 := goodRun_runAppraisal st maxPages none (some k) (by intro rows hx; simp at hx)
  obtain ⟨⟨hnd1, hmem1⟩, -, -, -⟩ := hgood1
  have hclean1 : ∀ a ∈ r1.appraisals, CleanApp a := cleanState_runAppraisal st hst maxPages (some k)
  have hfile : r1.file = (if r1.appraisals.isEmpty then none
      else some (sortByDesc Row.estimated_value_best (r1.appraisals.map rowOfAppraisal))) :=
    runFromNone_file st maxPages (some k)
  obtain ⟨hproc2, happ2, -, -, -, -, -, hef, heo⟩ := resRel_runAppraisal st maxPages r1.file
  cases hemp : r1.appraisals.isEmpty with
  | true =>
    have ha1 : r1.appraisals = [] := List.isEmpty_iff.mp hemp
    have hf : r1.file = none := by rw [hfile, hemp, if_pos rfl]
    have hP0 : (loadAppraisals r1.file).processed_urls = (∅ : Finset String) := by
      rw [hf]
      rfl
    have hL0 : (loadAppraisals r1.file).appraisals = ([] : List Appraisal) := by
      rw [hf]
      rfl
    refine ⟨?_, ?_, ?_, ?_⟩
    · rw [hproc2, hP0]
      simp
    · rw [happ2, hP0, hL0]
      have : u.appraisals.filter (fun a => decide (urlOf a ∉ (∅ : Finset String))) =
          u.appraisals := by
        refine List.filter_eq_self.mpr ?_
        intro a _
        simp
      rw [this]
      simp
    · have hgood2 := goodRun_runAppraisal st maxPages r1.file none
        (by intro rows hx; rw [hf] at hx; simp at hx)
      exact hgood2.1.1
    · intro v hv
      rw [hP0] at hv
      simp at hv
  | false =>
    have hane : ¬ r1.appraisals.isEmpty = true := by rw [hemp]; simp
    have hf : r1.file = some (sortByDesc Row.estimated_value_best
        (r1.appraisals.map rowOfAppraisal)) := by
      rw [hfile, hemp, if_neg (by simp)]
    have hSperm := sortByDesc_perm Row.estimated_value_best (r1.appraisals.map rowOfAppraisal)
    have hP0 : (loadAppraisals r1.file).processed_urls =
        ((sortByDesc Row.estimated_value_best (r1.appraisals.map rowOfAppraisal)).map
          Row.url).toFinset := by
      rw [hf]
      rfl
    have hL0 : (loadAppraisals r1.file).appraisals =
        (sortByDesc Row.estimated_value_best (r1.appraisals.map rowOfAppraisal)).map
          appraisalOfRow := by
      rw [hf]
      rfl
    have hurlmap : (r1.appraisals.map rowOfAppraisal).map Row.url = r1.appraisals.map urlOf := by
      rw [List.map_map]
      exact List.map_congr_left (fun a _ => rfl)
    have hP0eq : (loadAppraisals r1.file).processed_urls =
        (r1.appraisals.map urlOf).toFinset := by
      rw [hP0, perm_toFinset _ _ (hSperm.map Row.url), hurlmap]
    have hP0subr1 : (loadAppraisals r1.file).processed_urls ⊆ r1.processed := by
      rw [hP0eq]
      intro v hv
      rw [List.mem_toFinset, List.mem_map] at hv
      obtain ⟨a, ha, rfl⟩ := hv
      exact hmem1 a ha
    have hP0memapps : ∀ a ∈ r1.appraisals,
        urlOf a ∈ (loadAppraisals r1.file).processed_urls := by
      intro a ha
      rw [hP0eq, List.mem_toFinset]
      exact List.mem_map_of_mem urlOf ha
    refine ⟨?_, ?_, ?_, ?_⟩
    · rw [hproc2]
      exact Finset.union_eq_right.mpr (hP0subr1.trans hsub1)
    · rw [happ2, htu, List.filter_append]
      have hfilter1 : r1.appraisals.filter
          (fun a => decide (urlOf a ∉ (loadAppraisals r1.file).processed_urls)) = [] := by
        rw [List.filter_eq_nil_iff]
        intro a ha
        simp [hP0memapps a ha]
      have hfilter2 : t.filter
          (fun a => decide (urlOf a ∉ (loadAppraisals r1.file).processed_urls)) = t := by
        refine List.filter_eq_self.mpr ?_
        intro a ha
        refine decide_eq_true ?_
        intro hc
        exact hturl a ha (hP0subr1 hc)
      rw [hfilter1, hfilter2, List.nil_append]
      rw [List.map_append, List.map_append]
      refine List.Perm.append_right (t.map normApp) ?_
      have hperm1 : (loadAppraisals r1.file).appraisals.Perm (r1.appraisals.map normApp) := by
        rw [hL0]
        refine (hSperm.map appraisalOfRow).trans ?_
        rw [List.map_map]
        refine List.Perm.of_eq (List.map_congr_left ?_)
        intro a ha
        exact appraisalOfRow_rowOfAppraisal a (hclean1 a ha)
      refine (hperm1.map normApp).trans ?_
      rw [List.map_map]
      refine List.Perm.of_eq (List.map_congr_left ?_)
      intro a _
      exact normApp_idem a
    · have hgood2 := goodRun_runAppraisal st maxPages r1.file none ?_
      · exact hgood2.1.1
      · intro rows hx
        rw [hf] at hx
        have hrows : rows = sortByDesc Row.estimated_value_best
            (r1.appraisals.map rowOfAppraisal) := by
          injection hx.symm
        rw [hrows]
        refine (hSperm.map Row.url).nodup_iff.mpr ?_
        rw [hurlmap]
        exact hnd1
    · intro v hv
      exact ⟨fun hc => hef v hc hv, fun hc => heo v hc hv⟩

/-- Witness for the C1 amended theorem: the demo stubs satisfy the
clean-detail hypothesis, and a run interrupted after two items, saved and
resumed reaches the same processed set as the uninterrupted run. -/
theorem c1_resumption_witness :
    DetailClean demoStubs ∧
    (runAppraisal demoStubs 1
        (runAppraisal demoStubs 1 none (some 2)).state.file none).state.processed =
      (runAppraisal demoStubs 1 none none).state.processed := by
  have hdc : DetailClean demoStubs := by
    intro u d h x hx
    simp only [demoStubs] at h
    split at h
    · cases h
      simp only [pDetailB, pInfoB, List.mem_singleton] at hx
      subst hx
      decide
    · exact absurd h (by simp)
  exact ⟨hdc, (c1_resumption_amended demoStubs 1 2 hdc).1⟩

end Appraise
